import Mathlib

/-!
Verification of the TSDF voxel-grid kernels of
cpp/open3d/t/geometry/kernel/TSDFVoxelGridImpl.h.

The five kernels (IntegrateCPU, ExtractSurfacePointsCPU,
ExtractSurfaceMeshCPU, EstimateRangeCPU, RayCastCPU) are shallowly
embedded below.  Machine floats are modelled by exact rationals, int64
indices by integers, and the bulk-parallel launcher by a sequential fold
over the workload index space, which fixes one interleaving of the atomic
counters.  Helper code that the kernel file includes but that is not part
of the source tree (the voxel record of TSDFVoxel.h, the indexer and
transform helpers of GeometryIndexer.h, and the Marching Cubes tables) is
modelled from the specification; each such definition is marked
`Modelled from the spec`.
-/

namespace TsdfKernel

/-- Truncation toward zero of a rational number, the behaviour of a C cast
from a floating-point value to an integer type: floor for non-negative
values, negated floor of the negation otherwise. -/
def ratTrunc (q : ℚ) : ℤ := if 0 ≤ q then ⌊q⌋ else -⌊-q⌋

@[simp]
theorem ratTrunc_intCast (n : ℤ) : ratTrunc (n : ℚ) = n := by
  rw [ratTrunc]
  split
  · exact Int.floor_intCast n
  · rw [← Int.cast_neg, Int.floor_intCast, neg_neg]

@[simp]
theorem ratTrunc_zero : ratTrunc 0 = 0 := by
  norm_num [ratTrunc]

@[simp]
theorem ratTrunc_one : ratTrunc 1 = 1 := by
  norm_num [ratTrunc]

@[simp]
theorem ratTrunc_natCast (n : ℕ) : ratTrunc (n : ℚ) = n := by
  have := ratTrunc_intCast (n : ℤ)
  push_cast at this
  exact_mod_cast this

/-- Modelled from the spec: the per-voxel payload (spec 3.1).  The concrete
voxel record lives in TSDFVoxel.h, which is not part of the source tree.
The colour channels are carried by every voxel here; the monochrome kernel
instantiation simply never touches them. -/
structure Voxel where
  tsdf : ℚ
  weight : ℚ
  red : ℚ
  green : ℚ
  blue : ℚ
deriving DecidableEq, Repr

/-- Modelled from the spec: the fused running-average update of a
monochrome voxel (spec 3.1). -/
def Voxel.integrate (v : Voxel) (sdf : ℚ) : Voxel :=
  { v with
    tsdf := (v.weight * v.tsdf + sdf) / (v.weight + 1),
    weight := v.weight + 1 }

/-- Modelled from the spec: the fused running-average update of a colour
voxel (spec 3.1): colour channels follow the same formula as the TSDF. -/
def Voxel.integrateRGB (v : Voxel) (sdf rIn gIn bIn : ℚ) : Voxel :=
  { tsdf := (v.weight * v.tsdf + sdf) / (v.weight + 1),
    weight := v.weight + 1,
    red := (v.weight * v.red + rIn) / (v.weight + 1),
    green := (v.weight * v.green + gIn) / (v.weight + 1),
    blue := (v.weight * v.blue + bIn) / (v.weight + 1) }

/-- Pinhole intrinsic parameters (spec 6.3). -/
structure Intrinsics where
  fx : ℚ
  fy : ℚ
  cx : ℚ
  cy : ℚ

/-- Rows of a rigid 3x4 transform (rotation and translation). -/
structure Extrinsics where
  r00 : ℚ
  r01 : ℚ
  r02 : ℚ
  t0 : ℚ
  r10 : ℚ
  r11 : ℚ
  r12 : ℚ
  t1 : ℚ
  r20 : ℚ
  r21 : ℚ
  r22 : ℚ
  t2 : ℚ

/-- Modelled from the spec: TransformIndexer.RigidTransform
(GeometryIndexer.h, not in the source tree): scale the input point by the
creation-time factor, then apply the rigid transform (spec 4.1, 4.2). -/
def rigidTransform (E : Extrinsics) (scale x y z : ℚ) : ℚ × ℚ × ℚ :=
  (E.r00 * (scale * x) + E.r01 * (scale * y) + E.r02 * (scale * z) + E.t0,
   E.r10 * (scale * x) + E.r11 * (scale * y) + E.r12 * (scale * z) + E.t1,
   E.r20 * (scale * x) + E.r21 * (scale * y) + E.r22 * (scale * z) + E.t2)

/-- Modelled from the spec: TransformIndexer.Project, the pinhole
projection (spec 4.1). -/
def project (K : Intrinsics) (x y z : ℚ) : ℚ × ℚ :=
  (K.fx * x / z + K.cx, K.fy * y / z + K.cy)

/-- A 2D scalar image (the depth map); pixels are addressed by already
truncated integer coordinates (u, v). -/
structure Image2D where
  width : ℤ
  height : ℤ
  pix : ℤ → ℤ → ℚ

/-- A 2D three-channel image (the colour map). -/
structure Image3C where
  width : ℤ
  height : ℤ
  pix : ℤ → ℤ → ℚ × ℚ × ℚ

/-- Modelled from the spec: the 2D indexer bound test of
GeometryIndexer.h: integer truncation of the projected coordinates,
half-open [0,W) x [0,H) (spec 4.1). -/
def inBoundary (img : Image2D) (u v : ℚ) : Bool :=
  decide (0 ≤ ratTrunc u) && decide (ratTrunc u < img.width) &&
  decide (0 ≤ ratTrunc v) && decide (ratTrunc v < img.height)

/-- Scalar configuration of IntegrateCPU (TSDFVoxelGridImpl.h lines
52-65). -/
structure IntegrateParams where
  K : Intrinsics
  E : Extrinsics
  voxelSize : ℚ
  sdfTrunc : ℚ
  depthScale : ℚ
  depthMax : ℚ

/-- Camera-space coordinate of the voxel with world integer coordinate
(x, y, z) in voxel units (TSDFVoxelGridImpl.h lines 124-128). -/
def camCoord (p : IntegrateParams) (x y z : ℤ) : ℚ × ℚ × ℚ :=
  rigidTransform p.E p.voxelSize (x : ℚ) (y : ℚ) (z : ℚ)

/-- Camera-space depth of the voxel (the z component of camCoord). -/
def camZ (p : IntegrateParams) (x y z : ℤ) : ℚ :=
  (camCoord p x y z).2.2

/-- Projected pixel coordinate of the voxel (TSDFVoxelGridImpl.h line
131). -/
def pixelUV (p : IntegrateParams) (x y z : ℤ) : ℚ × ℚ :=
  project p.K (camCoord p x y z).1 (camCoord p x y z).2.1 (camCoord p x y z).2.2

/-- Metric depth sampled at the truncated projected pixel
(TSDFVoxelGridImpl.h lines 137-140). -/
def rawDepth (p : IntegrateParams) (dimg : Image2D) (x y z : ℤ) : ℚ :=
  dimg.pix (ratTrunc (pixelUV p x y z).1) (ratTrunc (pixelUV p x y z).2) /
    p.depthScale

/-- Signed distance of the voxel to the observed surface sample
(TSDFVoxelGridImpl.h line 142). -/
def sdfAt (p : IntegrateParams) (dimg : Image2D) (x y z : ℤ) : ℚ :=
  rawDepth p dimg x y z - camZ p x y z

/-- Truncated, normalised SDF stored by the kernel (TSDFVoxelGridImpl.h
lines 147-148): clamp from above at sdf_trunc, then divide by
sdf_trunc. -/
def clampSdf (p : IntegrateParams) (sdf : ℚ) : ℚ :=
  (if sdf < p.sdfTrunc then sdf else p.sdfTrunc) / p.sdfTrunc

/-- Embedding of the per-workload body of IntegrateCPU
(TSDFVoxelGridImpl.h lines 100-166).  The workload is identified by the
world voxel coordinate (x, y, z) := (xb*R + xv, yb*R + yv, zb*R + zv); the
targeted voxel value is the argument v and the updated value is
returned.  When cimg is some colour image, colour integration is enabled
(integrate_color in the source). -/
def integrateWorkload (p : IntegrateParams) (dimg : Image2D)
    (cimg : Option Image3C) (x y z : ℤ) (v : Voxel) : Voxel :=
  if inBoundary dimg (pixelUV p x y z).1 (pixelUV p x y z).2 then
    if rawDepth p dimg x y z ≤ 0 ∨ p.depthMax < rawDepth p dimg x y z ∨
        camZ p x y z ≤ 0 ∨ sdfAt p dimg x y z < -p.sdfTrunc then v
    else
      match cimg with
      | some ci =>
          v.integrateRGB (clampSdf p (sdfAt p dimg x y z))
            (ci.pix (ratTrunc (pixelUV p x y z).1)
              (ratTrunc (pixelUV p x y z).2)).1
            (ci.pix (ratTrunc (pixelUV p x y z).1)
              (ratTrunc (pixelUV p x y z).2)).2.1
            (ci.pix (ratTrunc (pixelUV p x y z).1)
              (ratTrunc (pixelUV p x y z).2)).2.2
      | none => v.integrate (clampSdf p (sdfAt p dimg x y z))
  else v

/-- The acceptance condition of the Integrate kernel: projection lands in
the image, depth is valid, the voxel is in front of the camera, and the
SDF is not below the negative truncation band. -/
def integrateAccepts (p : IntegrateParams) (dimg : Image2D)
    (x y z : ℤ) : Prop :=
  inBoundary dimg (pixelUV p x y z).1 (pixelUV p x y z).2 = true ∧
  0 < rawDepth p dimg x y z ∧ rawDepth p dimg x y z ≤ p.depthMax ∧
  0 < camZ p x y z ∧ -p.sdfTrunc ≤ sdfAt p dimg x y z

theorem integrateWorkload_accepted (p : IntegrateParams) (dimg : Image2D)
    (cimg : Option Image3C) (x y z : ℤ) (v : Voxel)
    (h : integrateAccepts p dimg x y z) :
    integrateWorkload p dimg cimg x y z v =
      match cimg with
      | some ci =>
          v.integrateRGB (clampSdf p (sdfAt p dimg x y z))
            (ci.pix (ratTrunc (pixelUV p x y z).1)
              (ratTrunc (pixelUV p x y z).2)).1
            (ci.pix (ratTrunc (pixelUV p x y z).1)
              (ratTrunc (pixelUV p x y z).2)).2.1
            (ci.pix (ratTrunc (pixelUV p x y z).1)
              (ratTrunc (pixelUV p x y z).2)).2.2
      | none => v.integrate (clampSdf p (sdfAt p dimg x y z)) := by
  obtain ⟨hin, hd0, hdmax, hz, hsdf⟩ := h
  rw [integrateWorkload.eq_def, if_pos hin, if_neg]
  push_neg
  exact ⟨hd0, by linarith, hz, by linarith⟩

theorem integrateWorkload_accepted_weight (p : IntegrateParams)
    (dimg : Image2D) (cimg : Option Image3C) (x y z : ℤ) (v : Voxel)
    (h : integrateAccepts p dimg x y z) :
    (integrateWorkload p dimg cimg x y z v).weight = v.weight + 1 := by
  rw [integrateWorkload_accepted p dimg cimg x y z v h]
  cases cimg <;> rfl

theorem integrateWorkload_accepted_tsdf (p : IntegrateParams)
    (dimg : Image2D) (cimg : Option Image3C) (x y z : ℤ) (v : Voxel)
    (h : integrateAccepts p dimg x y z) :
    (integrateWorkload p dimg cimg x y z v).tsdf =
      (v.weight * v.tsdf + clampSdf p (sdfAt p dimg x y z)) /
        (v.weight + 1) := by
  rw [integrateWorkload_accepted p dimg cimg x y z v h]
  cases cimg <;> rfl

theorem integrateWorkload_iterate (p : IntegrateParams) (dimg : Image2D)
    (cimg : Option Image3C) (x y z : ℤ)
    (h : integrateAccepts p dimg x y z) (v : Voxel) (N : ℕ) :
    ((integrateWorkload p dimg cimg x y z)^[N] v).weight = v.weight + N ∧
      (v.weight = 0 → 1 ≤ N →
        ((integrateWorkload p dimg cimg x y z)^[N] v).tsdf =
          clampSdf p (sdfAt p dimg x y z)) := by
  induction N with
  | zero => simp
  | succ n ih =>
    rw [Function.iterate_succ_apply']
    set w := (integrateWorkload p dimg cimg x y z)^[n] v with hw
    refine ⟨?_, ?_⟩
    · rw [integrateWorkload_accepted_weight p dimg cimg x y z w h, ih.1]
      push_cast
      ring
    · intro hv0 _
      rw [integrateWorkload_accepted_tsdf p dimg cimg x y z w h]
      have hwn : w.weight = n := by
        rw [ih.1, hv0, zero_add]
      rcases Nat.eq_zero_or_pos n with hn | hn
      · subst hn
        rw [hwn]
        push_cast
        simp
      · have hts : w.tsdf = clampSdf p (sdfAt p dimg x y z) :=
          ih.2 hv0 hn
        rw [hwn, hts]
        have hne : (n : ℚ) + 1 ≠ 0 := by positivity
        rw [div_eq_iff hne]
        ring

/-- C1: for every voxel accepted by the Integrate kernel (projection in
the image, depth valid, in front of the camera, sdf not below
-sdf_trunc), the voxel is updated by the fused running average:
new tsdf = (weight * old_tsdf + sdf)/(weight + 1) and
new weight = weight + 1, with rgb updated by the same formula when colour
is integrated; consequently, after N integrations of the same frame, an
observable voxel (starting from the uninitialised weight 0) has
weight = N and tsdf equal to the single-observation clamped SDF. -/
theorem C1_integrate_fused_average (p : IntegrateParams) (dimg : Image2D)
    (cimg : Option Image3C) (x y z : ℤ)
    (h : integrateAccepts p dimg x y z) :
    (∀ v : Voxel,
      (integrateWorkload p dimg cimg x y z v).tsdf =
        (v.weight * v.tsdf + clampSdf p (sdfAt p dimg x y z)) /
          (v.weight + 1) ∧
      (integrateWorkload p dimg cimg x y z v).weight = v.weight + 1 ∧
      ∀ ci, cimg = some ci →
        (integrateWorkload p dimg cimg x y z v).red =
          (v.weight * v.red +
            (ci.pix (ratTrunc (pixelUV p x y z).1)
              (ratTrunc (pixelUV p x y z).2)).1) / (v.weight + 1) ∧
        (integrateWorkload p dimg cimg x y z v).green =
          (v.weight * v.green +
            (ci.pix (ratTrunc (pixelUV p x y z).1)
              (ratTrunc (pixelUV p x y z).2)).2.1) / (v.weight + 1) ∧
        (integrateWorkload p dimg cimg x y z v).blue =
          (v.weight * v.blue +
            (ci.pix (ratTrunc (pixelUV p x y z).1)
              (ratTrunc (pixelUV p x y z).2)).2.2) / (v.weight + 1)) ∧
    (∀ (v : Voxel) (N : ℕ), v.weight = 0 → 1 ≤ N →
      ((integrateWorkload p dimg cimg x y z)^[N] v).weight = N ∧
      ((integrateWorkload p dimg cimg x y z)^[N] v).tsdf =
        clampSdf p (sdfAt p dimg x y z)) := by
  constructor
  · intro v
    refine ⟨integrateWorkload_accepted_tsdf p dimg cimg x y z v h,
      integrateWorkload_accepted_weight p dimg cimg x y z v h, ?_⟩
    intro ci hci
    subst hci
    rw [integrateWorkload_accepted p dimg (some ci) x y z v h]
    exact ⟨rfl, rfl, rfl⟩
  · intro v N hv0 hN
    have hmain := integrateWorkload_iterate p dimg cimg x y z h v N
    refine ⟨?_, hmain.2 hv0 hN⟩
    rw [hmain.1, hv0, zero_add]

/-- C2: for every workload of the Integrate kernel, if the projected
pixel is out of the image, or depth/depth_scale is not in
(0, depth_max], or the camera-space z is at most 0, or
sdf = depth - z is below -sdf_trunc, then the targeted voxel is left
completely unchanged; for accepted observations with sdf at most
sdf_trunc the stored increment value is sdf/sdf_trunc, and for
sdf above sdf_trunc it is +1. -/
theorem C2_integrate_rejection_and_truncation (p : IntegrateParams)
    (dimg : Image2D) (cimg : Option Image3C) (x y z : ℤ) (v : Voxel) :
    (inBoundary dimg (pixelUV p x y z).1 (pixelUV p x y z).2 = false →
      integrateWorkload p dimg cimg x y z v = v) ∧
    ((rawDepth p dimg x y z ≤ 0 ∨ p.depthMax < rawDepth p dimg x y z ∨
        camZ p x y z ≤ 0 ∨ sdfAt p dimg x y z < -p.sdfTrunc) →
      integrateWorkload p dimg cimg x y z v = v) ∧
    (integrateAccepts p dimg x y z →
      (integrateWorkload p dimg cimg x y z v).tsdf =
        (v.weight * v.tsdf + clampSdf p (sdfAt p dimg x y z)) /
          (v.weight + 1) ∧
      (integrateWorkload p dimg cimg x y z v).weight = v.weight + 1) ∧
    (0 < p.sdfTrunc → sdfAt p dimg x y z ≤ p.sdfTrunc →
      clampSdf p (sdfAt p dimg x y z) = sdfAt p dimg x y z / p.sdfTrunc) ∧
    (0 < p.sdfTrunc → p.sdfTrunc < sdfAt p dimg x y z →
      clampSdf p (sdfAt p dimg x y z) = 1) := by
  refine ⟨?_, ?_, ?_, ?_, ?_⟩
  · intro hout
    rw [integrateWorkload.eq_def, hout]
    simp
  · intro hrej
    rw [integrateWorkload.eq_def]
    by_cases hin :
        inBoundary dimg (pixelUV p x y z).1 (pixelUV p x y z).2 = true
    · rw [if_pos hin, if_pos hrej]
    · simp only [Bool.not_eq_true] at hin
      rw [hin]
      simp
  · intro h
    exact ⟨integrateWorkload_accepted_tsdf p dimg cimg x y z v h,
      integrateWorkload_accepted_weight p dimg cimg x y z v h⟩
  · intro htr hle
    rw [clampSdf]
    rcases lt_or_eq_of_le hle with hlt | heq
    · rw [if_pos hlt]
    · rw [heq, if_neg (lt_irrefl _)]
  · intro htr hgt
    rw [clampSdf, if_neg (not_lt.mpr (le_of_lt hgt)),
      div_self (ne_of_gt htr)]

/-- Unit intrinsics used by the concrete Integrate scenarios. -/
def K1 : Intrinsics := ⟨1, 1, 0, 0⟩

/-- Identity extrinsics used by the concrete scenarios. -/
def EId : Extrinsics := ⟨1, 0, 0, 0, 0, 1, 0, 0, 0, 0, 1, 0⟩

/-- Integrate scenario parameters: unit voxel size, unit truncation band,
unit depth scale, depth_max 2. -/
def pC1 : IntegrateParams := ⟨K1, EId, 1, 1, 1, 2⟩

/-- Integrate scenario parameters with a narrow truncation band 1/4 and
voxel size 1/2, so the voxel at integer coordinate (0,0,1) sees an SDF
above the band. -/
def pC2 : IntegrateParams := ⟨K1, EId, 1/2, 1/4, 1, 2⟩

/-- A 1x1 depth image with constant raw depth 1. -/
def dimgC1 : Image2D := ⟨1, 1, fun _ _ => 1⟩

/-- A sample previously written voxel. -/
def vC1 : Voxel := ⟨1/3, 2, 5, 6, 7⟩

/-- An uninitialised voxel: weight 0. -/
def vInit : Voxel := ⟨1/4, 0, 0, 0, 0⟩

theorem integrateAccepts_pC1 : integrateAccepts pC1 dimgC1 0 0 1 := by
  refine ⟨?_, ?_, ?_, ?_, ?_⟩ <;>
    norm_num [integrateAccepts, inBoundary, pixelUV, camCoord, camZ,
      rawDepth, sdfAt, rigidTransform, project, pC1, dimgC1, K1, EId, ratTrunc]

/-- Witness for C1: at the concrete accepted scenario pC1, two
integrations of the same frame leave the voxel with weight 2 and with
tsdf equal to the single-observation clamped SDF. -/
theorem C1_witness :
    integrateAccepts pC1 dimgC1 0 0 1 ∧
    ((integrateWorkload pC1 dimgC1 none 0 0 1)^[2] vInit).weight = 2 ∧
    ((integrateWorkload pC1 dimgC1 none 0 0 1)^[2] vInit).tsdf =
      clampSdf pC1 (sdfAt pC1 dimgC1 0 0 1) := by
  have hacc := integrateAccepts_pC1
  have hmain :=
    (C1_integrate_fused_average pC1 dimgC1 none 0 0 1 hacc).2 vInit 2
      (by norm_num [vInit]) (by norm_num)
  refine ⟨hacc, ?_, hmain.2⟩
  rw [hmain.1]
  norm_num

theorem integrateAccepts_pC2 : integrateAccepts pC2 dimgC1 0 0 1 := by
  refine ⟨?_, ?_, ?_, ?_, ?_⟩ <;>
    norm_num [integrateAccepts, inBoundary, pixelUV, camCoord, camZ,
      rawDepth, sdfAt, rigidTransform, project, pC2, dimgC1, K1, EId, ratTrunc]

/-- Witness for C2: a workload projecting out of the 1x1 image leaves
the voxel unchanged; a workload behind the camera leaves the voxel
unchanged; an accepted in-band observation stores sdf/sdf_trunc; an
accepted above-band observation stores +1. -/
theorem C2_witness :
    integrateWorkload pC1 dimgC1 none 5 0 1 vC1 = vC1 ∧
    integrateWorkload pC1 dimgC1 none 0 0 (-1) vC1 = vC1 ∧
    clampSdf pC1 (sdfAt pC1 dimgC1 0 0 1) =
      sdfAt pC1 dimgC1 0 0 1 / pC1.sdfTrunc ∧
    clampSdf pC2 (sdfAt pC2 dimgC1 0 0 1) = 1 := by
  refine ⟨?_, ?_, ?_, ?_⟩
  · exact (C2_integrate_rejection_and_truncation pC1 dimgC1 none 5 0 1
      vC1).1 (by
        norm_num [inBoundary, pixelUV, camCoord, rigidTransform, project, ratTrunc,
          pC1, dimgC1, K1, EId])
  · exact (C2_integrate_rejection_and_truncation pC1 dimgC1 none 0 0 (-1)
      vC1).2.1 (by
        right; right; left
        norm_num [camZ, camCoord, rigidTransform, pC1, K1, EId])
  · exact (C2_integrate_rejection_and_truncation pC1 dimgC1 none 0 0 1
      vC1).2.2.2.1 (by norm_num [pC1])
      (by norm_num [sdfAt, rawDepth, camZ, camCoord, pixelUV,
        rigidTransform, project, pC1, dimgC1, K1, EId])
  · exact (C2_integrate_rejection_and_truncation pC2 dimgC1 none 0 0 1
      vC1).2.2.2.2 (by norm_num [pC2])
      (by norm_num [sdfAt, rawDepth, camZ, camCoord, pixelUV,
        rigidTransform, project, pC2, dimgC1, K1, EId])

/-! ## Extraction kernels: shared voxel-grid data model -/

/-- The active-set tables handed to the extraction kernels (spec 3.3).
Borrowed tensors are modelled as total functions; int64 values are ℤ.
res is the block resolution R, nBlocks the length of the block buffer,
nActive the length of the processed index list. -/
structure Grid where
  res : ℕ
  nBlocks : ℕ
  nActive : ℕ
  indices : ℕ → ℤ
  blockKeys : ℤ → ℤ × ℤ × ℤ
  voxel : ℤ → ℤ → ℤ → ℤ → Voxel
  nbIndices : ℕ → ℤ → ℤ
  nbMasks : ℕ → ℤ → Bool
  invIndices : ℤ → ℤ

/-- Modelled from the spec: NDArrayIndexer.WorkloadToCoord over the cubic
shape (R,R,R) (GeometryIndexer.h, not in the source tree): row-major
decode with fastest axis z (spec 4.1). -/
def voxelCoord (R vidx : ℕ) : ℕ × ℕ × ℕ :=
  (vidx / (R * R), vidx / R % R, vidx % R)

/-- Workload enumeration of an extraction kernel: n = nActive * R^3
workloads, each decoded into the block position k of the processed index
list and the local voxel coordinate (lines 102-104 and 243-254). -/
def workloadList (nA R : ℕ) : List (ℕ × ℕ × ℕ × ℕ) :=
  (List.range (nA * (R * R * R))).map (fun w =>
    ((w / (R * R * R), voxelCoord R (w % (R * R * R))) : ℕ × ℕ × ℕ × ℕ))

/-- Modelled from the spec: DeviceGetVoxelAt (TSDFVoxel.h, not in the
source tree), the indexed neighbor-voxel access of spec 4.3: split the
signed local coordinate into a block offset by floor division, consult
the 27-entry neighbor mask and index tables of the current block
position, and address the wrapped coordinate in the neighbor block;
absent when the mask clears. -/
def DeviceGetVoxelAt (g : Grid) (xo yo zo : ℤ) (k : ℕ) : Option Voxel :=
  let R : ℤ := (g.res : ℤ)
  let dxb := Int.fdiv xo R
  let dyb := Int.fdiv yo R
  let dzb := Int.fdiv zo R
  let nb := (dxb + 1) + (dyb + 1) * 3 + (dzb + 1) * 9
  if g.nbMasks k nb then
    some (g.voxel (g.nbIndices k nb) (Int.emod xo R) (Int.emod yo R)
      (Int.emod zo R))
  else none

/-! ## ExtractSurfacePointsCPU -/

/-- One candidate emission of ExtractSurfacePointsCPU at block position
k, local voxel (xv,yv,zv), axis i (0,1,2 for +x,+y,+z), mirroring lines
371-422: none when the origin weight is at most the threshold, the +axis
neighbor is absent, its weight is at most the threshold, or there is no
sign change; otherwise the interpolated zero-crossing point. -/
def spEmit (g : Grid) (vsize th : ℚ) (k xv yv zv i : ℕ) :
    Option (ℚ × ℚ × ℚ) :=
  let vo := g.voxel (g.indices k) (xv : ℤ) (yv : ℤ) (zv : ℤ)
  if vo.weight ≤ th then none
  else
    match DeviceGetVoxelAt g ((xv : ℤ) + (if i = 0 then 1 else 0))
        ((yv : ℤ) + (if i = 1 then 1 else 0))
        ((zv : ℤ) + (if i = 2 then 1 else 0)) k with
    | none => none
    | some vi =>
      if th < vi.weight ∧ vi.tsdf * vo.tsdf < 0 then
        let ratio := (0 - vo.tsdf) / (vi.tsdf - vo.tsdf)
        let key := g.blockKeys (g.indices k)
        let x : ℚ := ((key.1 * (g.res : ℤ) + (xv : ℤ) : ℤ) : ℚ)
        let y : ℚ := ((key.2.1 * (g.res : ℤ) + (yv : ℤ) : ℤ) : ℚ)
        let z : ℚ := ((key.2.2 * (g.res : ℤ) + (zv : ℤ) : ℤ) : ℚ)
        some (vsize * (x + ratio * (if i = 0 then 1 else 0)),
              vsize * (y + ratio * (if i = 1 then 1 else 0)),
              vsize * (z + ratio * (if i = 2 then 1 else 0)))
      else none

/-- Pass A per-axis counting step of ExtractSurfacePointsCPU (lines
264-281): 1 when the crossing predicate fires (neighbor present, weight
above threshold, opposite TSDF signs), 0 otherwise. -/
def passAAxis (g : Grid) (th : ℚ) (k xv yv zv i : ℕ) : ℕ :=
  let vo := g.voxel (g.indices k) (xv : ℤ) (yv : ℤ) (zv : ℤ)
  match DeviceGetVoxelAt g ((xv : ℤ) + (if i = 0 then 1 else 0))
      ((yv : ℤ) + (if i = 1 then 1 else 0))
      ((zv : ℤ) + (if i = 2 then 1 else 0)) k with
  | none => 0
  | some vi => if th < vi.weight ∧ vi.tsdf * vo.tsdf < 0 then 1 else 0

/-- Pass A per-workload count (lines 256-281): early return when the
origin weight is at most the threshold, otherwise the three axis
steps. -/
def passAVoxel (g : Grid) (th : ℚ) (k xv yv zv : ℕ) : ℕ :=
  if (g.voxel (g.indices k) (xv : ℤ) (yv : ℤ) (zv : ℤ)).weight ≤ th then 0
  else ([0, 1, 2].map (passAAxis g th k xv yv zv)).sum

/-- Pass A of ExtractSurfacePointsCPU (lines 221-292): the atomic
crossing count over the whole workload space. -/
def passACount (g : Grid) (th : ℚ) : ℕ :=
  ((workloadList g.nActive g.res).map (fun w =>
    passAVoxel g th w.1 w.2.1 w.2.2.1 w.2.2.2)).sum

/-- The candidate emissions of one workload, in axis order. -/
def spWorkEmit (g : Grid) (vsize th : ℚ) (w : ℕ × ℕ × ℕ × ℕ) :
    List (ℚ × ℚ × ℚ) :=
  [0, 1, 2].filterMap (spEmit g vsize th w.1 w.2.1 w.2.2.1 w.2.2.2)

/-- The list of points the emission predicate produces in workload order:
the specification-side description of what both passes enumerate. -/
def emitList (g : Grid) (vsize th : ℚ) : List (ℚ × ℚ × ℚ) :=
  (workloadList g.nActive g.res).flatMap (spWorkEmit g vsize th)

/-- State threaded through Pass B: the atomic counter, the written
(index, point) pairs, and whether the overflow diagnostic has been
printed. -/
structure PBState where
  count : ℕ
  written : List (ℕ × (ℚ × ℚ × ℚ))
  diag : Bool
deriving DecidableEq, Repr

/-- Pass B inner axis loop of ExtractSurfacePointsCPU (lines 390-472):
on a crossing, the counter is fetched and incremented; an index at or
beyond valid_size prints the overflow diagnostic and returns from the
workload, skipping its remaining axes; otherwise the point is written at
the fetched index. -/
def passBAxes (g : Grid) (vsize th : ℚ) (vs : ℤ) (k xv yv zv : ℕ) :
    List ℕ → PBState → PBState
  | [], st => st
  | i :: rest, st =>
    match spEmit g vsize th k xv yv zv i with
    | none => passBAxes g vsize th vs k xv yv zv rest st
    | some pt =>
      if (st.count : ℤ) ≥ vs then
        { count := st.count + 1, written := st.written, diag := true }
      else
        passBAxes g vsize th vs k xv yv zv rest
          { count := st.count + 1,
            written := st.written ++ [(st.count, pt)],
            diag := st.diag }

/-- Pass B per-workload step: the three axes of one voxel. -/
def passBStep (g : Grid) (vsize th : ℚ) (vs : ℤ) (st : PBState)
    (w : ℕ × ℕ × ℕ × ℕ) : PBState :=
  passBAxes g vsize th vs w.1 w.2.1 w.2.2.1 w.2.2.2 [0, 1, 2] st

/-- Pass B of ExtractSurfacePointsCPU (lines 314-474), modelled as a
sequential fold over the workload space. -/
def passB (g : Grid) (vsize th : ℚ) (vs : ℤ) : PBState :=
  (workloadList g.nActive g.res).foldl (passBStep g vsize th vs)
    ⟨0, [], false⟩

/-- Top level of ExtractSurfacePointsCPU (lines 173-487): a negative
valid_size triggers the counting pass whose result becomes the buffer
bound; the final counter value is reported back through valid_size. -/
def ExtractSurfacePointsCPU (g : Grid) (vsize th : ℚ) (validSize : ℤ) :
    PBState × ℤ :=
  let vs := if validSize < 0 then (passACount g th : ℤ) else validSize
  let st := passB g vsize th vs
  (st, (st.count : ℤ))

/-! ### List bookkeeping helpers -/

theorem length_filterMap_eq_sum {α β : Type} (f : α → Option β)
    (l : List α) :
    (l.filterMap f).length =
      (l.map (fun a => if (f a).isSome then 1 else 0)).sum := by
  induction l with
  | nil => rfl
  | cons a t ih =>
    rcases h : f a with _ | b <;>
      simp [List.filterMap_cons, h, ih, Nat.add_comm]

theorem length_flatMap_eq_sum {α β : Type} (f : α → List β) (l : List α) :
    (l.flatMap f).length = (l.map (fun a => (f a).length)).sum := by
  induction l with
  | nil => rfl
  | cons a t ih => simp [List.flatMap_cons, ih]

theorem enumFrom_map_fst_eq {α : Type} (n : ℕ) (l : List α) :
    (List.enumFrom n l).map Prod.fst = List.range' n l.length := by
  induction l generalizing n with
  | nil => rfl
  | cons a t ih => simp [List.enumFrom_cons, List.range'_succ, ih]

theorem enumFrom_map_snd_eq {α : Type} (n : ℕ) (l : List α) :
    (List.enumFrom n l).map Prod.snd = l := by
  induction l generalizing n with
  | nil => rfl
  | cons a t ih => simp [List.enumFrom_cons, ih]

theorem enumFrom_append_eq {α : Type} (l1 l2 : List α) (n : ℕ) :
    List.enumFrom n (l1 ++ l2) =
      List.enumFrom n l1 ++ List.enumFrom (n + l1.length) l2 := by
  induction l1 generalizing n with
  | nil => simp
  | cons a t ih =>
    simp only [List.cons_append, List.enumFrom_cons, ih, List.length_cons]
    have harith : n + 1 + t.length = n + (t.length + 1) := by omega
    rw [harith]

/-! ### Pass A counts exactly the emission predicate -/

theorem spEmit_none_of_weight (g : Grid) (vsize th : ℚ) (k xv yv zv i : ℕ)
    (h : (g.voxel (g.indices k) (xv : ℤ) (yv : ℤ) (zv : ℤ)).weight ≤ th) :
    spEmit g vsize th k xv yv zv i = none := by
  simp only [spEmit]
  rw [if_pos h]

theorem passAAxis_eq (g : Grid) (vsize th : ℚ) (k xv yv zv i : ℕ)
    (h : ¬ (g.voxel (g.indices k) (xv : ℤ) (yv : ℤ) (zv : ℤ)).weight ≤ th) :
    passAAxis g th k xv yv zv i =
      if (spEmit g vsize th k xv yv zv i).isSome then 1 else 0 := by
  cases hnb : DeviceGetVoxelAt g ((xv : ℤ) + (if i = 0 then 1 else 0))
      ((yv : ℤ) + (if i = 1 then 1 else 0))
      ((zv : ℤ) + (if i = 2 then 1 else 0)) k with
  | none => simp [passAAxis, spEmit, h, hnb]
  | some vi =>
    by_cases hc : th < vi.weight ∧
        vi.tsdf * (g.voxel (g.indices k) (xv : ℤ) (yv : ℤ) (zv : ℤ)).tsdf < 0 <;>
      simp [passAAxis, spEmit, h, hnb, hc]

theorem passAVoxel_eq (g : Grid) (vsize th : ℚ) (k xv yv zv : ℕ) :
    passAVoxel g th k xv yv zv =
      ([0, 1, 2].filterMap (spEmit g vsize th k xv yv zv)).length := by
  by_cases h : (g.voxel (g.indices k) (xv : ℤ) (yv : ℤ) (zv : ℤ)).weight ≤ th
  · rw [passAVoxel, if_pos h]
    simp [List.filterMap_cons, spEmit_none_of_weight g vsize th k xv yv zv _ h]
  · rw [passAVoxel, if_neg h, length_filterMap_eq_sum]
    simp only [List.map_cons, List.map_nil,
      passAAxis_eq g vsize th k xv yv zv 0 h,
      passAAxis_eq g vsize th k xv yv zv 1 h,
      passAAxis_eq g vsize th k xv yv zv 2 h]

theorem passACount_eq (g : Grid) (vsize th : ℚ) :
    passACount g th = (emitList g vsize th).length := by
  rw [passACount, emitList, length_flatMap_eq_sum]
  refine congrArg _ (List.map_congr_left ?_)
  intro w _
  rw [passAVoxel_eq g vsize th w.1 w.2.1 w.2.2.1 w.2.2.2, spWorkEmit]

/-! ### Pass B characterisation -/

theorem passBAxes_append (g : Grid) (vsize th : ℚ) (vs : ℤ)
    (k xv yv zv : ℕ) :
    ∀ (axes : List ℕ) (st : PBState),
      (st.count : ℤ) +
          ((axes.filterMap (spEmit g vsize th k xv yv zv)).length : ℤ) ≤ vs →
      passBAxes g vsize th vs k xv yv zv axes st =
        ⟨st.count + (axes.filterMap (spEmit g vsize th k xv yv zv)).length,
         st.written ++
           List.enumFrom st.count
             (axes.filterMap (spEmit g vsize th k xv yv zv)),
         st.diag⟩ := by
  intro axes
  induction axes with
  | nil =>
    intro st _
    simp [passBAxes]
  | cons i rest ih =>
    intro st h
    cases he : spEmit g vsize th k xv yv zv i with
    | none =>
      have hfm : (i :: rest).filterMap (spEmit g vsize th k xv yv zv) =
          rest.filterMap (spEmit g vsize th k xv yv zv) := by
        simp [List.filterMap_cons, he]
      rw [hfm] at h
      rw [passBAxes, he]
      dsimp only
      rw [hfm]
      exact ih st h
    | some pt =>
      have hfm : (i :: rest).filterMap (spEmit g vsize th k xv yv zv) =
          pt :: rest.filterMap (spEmit g vsize th k xv yv zv) := by
        simp [List.filterMap_cons, he]
      rw [hfm] at h
      simp only [List.length_cons] at h
      push_cast at h
      have hlt : (st.count : ℤ) < vs := by omega
      rw [passBAxes, he]
      dsimp only
      rw [if_neg (by omega)]
      rw [ih ⟨st.count + 1, st.written ++ [(st.count, pt)], st.diag⟩
        (by dsimp only; push_cast; omega)]
      rw [hfm]
      simp only [PBState.mk.injEq, List.enumFrom_cons, List.length_cons]
      refine ⟨by omega, ?_, trivial⟩
      rw [List.append_assoc, List.singleton_append]

theorem passB_fold_append (g : Grid) (vsize th : ℚ) (vs : ℤ) :
    ∀ (ws : List (ℕ × ℕ × ℕ × ℕ)) (st : PBState),
      (st.count : ℤ) + ((ws.flatMap (spWorkEmit g vsize th)).length : ℤ) ≤ vs →
      ws.foldl (passBStep g vsize th vs) st =
        ⟨st.count + (ws.flatMap (spWorkEmit g vsize th)).length,
         st.written ++
           List.enumFrom st.count (ws.flatMap (spWorkEmit g vsize th)),
         st.diag⟩ := by
  intro ws
  induction ws with
  | nil =>
    intro st _
    simp
  | cons w rest ih =>
    intro st h
    rw [List.foldl_cons]
    rw [List.flatMap_cons] at h ⊢
    simp only [List.length_append] at h
    push_cast at h
    have hstep : passBStep g vsize th vs st w =
        ⟨st.count + (spWorkEmit g vsize th w).length,
         st.written ++ List.enumFrom st.count (spWorkEmit g vsize th w),
         st.diag⟩ := by
      rw [passBStep]
      have := passBAxes_append g vsize th vs w.1 w.2.1 w.2.2.1 w.2.2.2
        [0, 1, 2] st (by rw [← spWorkEmit]; omega)
      rw [this, spWorkEmit]
    rw [hstep, ih _ (by simp only [PBState.count]; push_cast; omega)]
    simp only [PBState.mk.injEq, List.length_append]
    refine ⟨by omega, ?_, trivial⟩
    rw [enumFrom_append_eq, List.append_assoc]

theorem passBAxes_diag_mono (g : Grid) (vsize th : ℚ) (vs : ℤ)
    (k xv yv zv : ℕ) :
    ∀ (axes : List ℕ) (st : PBState), st.diag = true →
      (passBAxes g vsize th vs k xv yv zv axes st).diag = true := by
  intro axes
  induction axes with
  | nil =>
    intro st h
    simpa [passBAxes] using h
  | cons i rest ih =>
    intro st h
    cases he : spEmit g vsize th k xv yv zv i with
    | none =>
      rw [passBAxes, he]
      exact ih st h
    | some pt =>
      rw [passBAxes, he]
      dsimp only
      by_cases hov : (st.count : ℤ) ≥ vs
      · rw [if_pos hov]
      · rw [if_neg hov]
        exact ih _ h

theorem passB_fold_diag_mono (g : Grid) (vsize th : ℚ) (vs : ℤ) :
    ∀ (ws : List (ℕ × ℕ × ℕ × ℕ)) (st : PBState), st.diag = true →
      (ws.foldl (passBStep g vsize th vs) st).diag = true := by
  intro ws
  induction ws with
  | nil =>
    intro st h
    simpa using h
  | cons w rest ih =>
    intro st h
    rw [List.foldl_cons]
    exact ih _ (passBAxes_diag_mono g vsize th vs w.1 w.2.1 w.2.2.1 w.2.2.2
      [0, 1, 2] st h)

theorem passBAxes_written_mem (g : Grid) (vsize th : ℚ) (vs : ℤ)
    (k xv yv zv : ℕ) :
    ∀ (axes : List ℕ) (st : PBState) (e : ℕ × (ℚ × ℚ × ℚ)),
      e ∈ (passBAxes g vsize th vs k xv yv zv axes st).written →
      e ∈ st.written ∨ ((e.1 : ℤ) < vs ∧ ∃ i, i ∈ axes ∧
        spEmit g vsize th k xv yv zv i = some e.2) := by
  intro axes
  induction axes with
  | nil =>
    intro st e he
    exact Or.inl (by simpa [passBAxes] using he)
  | cons i rest ih =>
    intro st e hmem
    cases he : spEmit g vsize th k xv yv zv i with
    | none =>
      rw [passBAxes, he] at hmem
      dsimp only at hmem
      rcases ih st e hmem with h | ⟨h1, j, hj, hspec⟩
      · exact Or.inl h
      · exact Or.inr ⟨h1, j, List.mem_cons_of_mem i hj, hspec⟩
    | some pt =>
      rw [passBAxes, he] at hmem
      dsimp only at hmem
      by_cases hov : (st.count : ℤ) ≥ vs
      · rw [if_pos hov] at hmem
        dsimp only at hmem
        exact Or.inl hmem
      · rw [if_neg hov] at hmem
        rcases ih _ e hmem with h | ⟨h1, j, hj, hspec⟩
        · dsimp only at h
          rcases List.mem_append.mp h with h | h
          · exact Or.inl h
          · rcases List.mem_singleton.mp h with rfl
            refine Or.inr ⟨by simpa using not_le.mp hov, i,
              List.mem_cons_self i rest, ?_⟩
            simpa using he
        · exact Or.inr ⟨h1, j, List.mem_cons_of_mem i hj, hspec⟩

theorem passB_fold_written_mem (g : Grid) (vsize th : ℚ) (vs : ℤ) :
    ∀ (ws : List (ℕ × ℕ × ℕ × ℕ)) (st : PBState) (e : ℕ × (ℚ × ℚ × ℚ)),
      e ∈ (ws.foldl (passBStep g vsize th vs) st).written →
      e ∈ st.written ∨ ((e.1 : ℤ) < vs ∧ ∃ w, w ∈ ws ∧ ∃ i, i ∈ ([0, 1, 2] : List ℕ) ∧
        spEmit g vsize th w.1 w.2.1 w.2.2.1 w.2.2.2 i = some e.2) := by
  intro ws
  induction ws with
  | nil =>
    intro st e he
    exact Or.inl (by simpa using he)
  | cons w rest ih =>
    intro st e hmem
    rw [List.foldl_cons] at hmem
    rcases ih _ e hmem with h | ⟨h1, w2, hw2, hrest⟩
    · rcases passBAxes_written_mem g vsize th vs w.1 w.2.1 w.2.2.1 w.2.2.2
          [0, 1, 2] st e h with h | ⟨h1, i, hi, hspec⟩
      · exact Or.inl h
      · exact Or.inr ⟨h1, w, List.mem_cons_self w rest, i, hi, hspec⟩
    · exact Or.inr ⟨h1, w2, List.mem_cons_of_mem w hw2, hrest⟩

theorem passBAxes_count_le (g : Grid) (vsize th : ℚ) (vs : ℤ)
    (k xv yv zv : ℕ) :
    ∀ (axes : List ℕ) (st : PBState),
      (passBAxes g vsize th vs k xv yv zv axes st).count ≤
        st.count + (axes.filterMap (spEmit g vsize th k xv yv zv)).length := by
  intro axes
  induction axes with
  | nil =>
    intro st
    simp [passBAxes]
  | cons i rest ih =>
    intro st
    cases he : spEmit g vsize th k xv yv zv i with
    | none =>
      rw [passBAxes, he]
      dsimp only
      have hfm : ((i :: rest).filterMap (spEmit g vsize th k xv yv zv)).length =
          (rest.filterMap (spEmit g vsize th k xv yv zv)).length := by
        simp [List.filterMap_cons, he]
      rw [hfm]
      exact ih st
    | some pt =>
      rw [passBAxes, he]
      dsimp only
      have hfm : ((i :: rest).filterMap (spEmit g vsize th k xv yv zv)).length =
          (rest.filterMap (spEmit g vsize th k xv yv zv)).length + 1 := by
        simp [List.filterMap_cons, he]
      rw [hfm]
      by_cases hov : (st.count : ℤ) ≥ vs
      · rw [if_pos hov]
        dsimp only
        omega
      · rw [if_neg hov]
        have hrec := ih ⟨st.count + 1, st.written ++ [(st.count, pt)], st.diag⟩
        dsimp only at hrec
        omega

theorem passB_fold_count_le (g : Grid) (vsize th : ℚ) (vs : ℤ) :
    ∀ (ws : List (ℕ × ℕ × ℕ × ℕ)) (st : PBState),
      (ws.foldl (passBStep g vsize th vs) st).count ≤
        st.count + (ws.flatMap (spWorkEmit g vsize th)).length := by
  intro ws
  induction ws with
  | nil =>
    intro st
    simp
  | cons w rest ih =>
    intro st
    have hstep : passBStep g vsize th vs st w =
        passBAxes g vsize th vs w.1 w.2.1 w.2.2.1 w.2.2.2 [0, 1, 2] st := rfl
    have hsw : spWorkEmit g vsize th w =
        [0, 1, 2].filterMap (spEmit g vsize th w.1 w.2.1 w.2.2.1 w.2.2.2) := rfl
    rw [List.foldl_cons, List.flatMap_cons, hstep]
    have h1 := passBAxes_count_le g vsize th vs w.1 w.2.1 w.2.2.1 w.2.2.2
      [0, 1, 2] st
    have h2 := ih (passBAxes g vsize th vs w.1 w.2.1 w.2.2.1 w.2.2.2
      [0, 1, 2] st)
    simp only [List.length_append, hsw]
    omega

theorem passBAxes_diag_false (g : Grid) (vsize th : ℚ) (vs : ℤ)
    (k xv yv zv : ℕ) :
    ∀ (axes : List ℕ) (st : PBState),
      (passBAxes g vsize th vs k xv yv zv axes st).diag = false →
      st.diag = false ∧
      (passBAxes g vsize th vs k xv yv zv axes st).count =
        st.count + (axes.filterMap (spEmit g vsize th k xv yv zv)).length ∧
      ((axes.filterMap (spEmit g vsize th k xv yv zv)).length = 0 ∨
        (st.count : ℤ) +
          ((axes.filterMap (spEmit g vsize th k xv yv zv)).length : ℤ) ≤ vs) := by
  intro axes
  induction axes with
  | nil =>
    intro st h
    refine ⟨by simpa [passBAxes] using h, by simp [passBAxes], Or.inl rfl⟩
  | cons i rest ih =>
    intro st h
    cases he : spEmit g vsize th k xv yv zv i with
    | none =>
      rw [passBAxes, he] at h ⊢
      dsimp only at h ⊢
      have hfm : (i :: rest).filterMap (spEmit g vsize th k xv yv zv) =
          rest.filterMap (spEmit g vsize th k xv yv zv) := by
        simp [List.filterMap_cons, he]
      rw [hfm]
      exact ih st h
    | some pt =>
      rw [passBAxes, he] at h ⊢
      dsimp only at h ⊢
      by_cases hov : (st.count : ℤ) ≥ vs
      · rw [if_pos hov] at h
        dsimp only at h
        simp at h
      · rw [if_neg hov] at h ⊢
        have hin := ih ⟨st.count + 1, st.written ++ [(st.count, pt)], st.diag⟩ h
        dsimp only at hin
        have hfm : (i :: rest).filterMap (spEmit g vsize th k xv yv zv) =
            pt :: rest.filterMap (spEmit g vsize th k xv yv zv) := by
          simp [List.filterMap_cons, he]
        rw [hfm]
        refine ⟨hin.1, ?_, ?_⟩
        · rw [hin.2.1]
          simp only [List.length_cons]
          omega
        · rcases hin.2.2 with h0 | hle
          · simp only [List.length_cons, h0]
            right
            push_cast
            omega
          · simp only [List.length_cons]
            right
            push_cast at hle ⊢
            omega

theorem passB_fold_diag_false (g : Grid) (vsize th : ℚ) (vs : ℤ) :
    ∀ (ws : List (ℕ × ℕ × ℕ × ℕ)) (st : PBState),
      (ws.foldl (passBStep g vsize th vs) st).diag = false →
      st.diag = false ∧
      (ws.foldl (passBStep g vsize th vs) st).count =
        st.count + (ws.flatMap (spWorkEmit g vsize th)).length ∧
      ((ws.flatMap (spWorkEmit g vsize th)).length = 0 ∨
        (st.count : ℤ) +
          ((ws.flatMap (spWorkEmit g vsize th)).length : ℤ) ≤ vs) := by
  intro ws
  induction ws with
  | nil =>
    intro st h
    exact ⟨by simpa using h, by simp, Or.inl rfl⟩
  | cons w rest ih =>
    intro st h
    have hstep : passBStep g vsize th vs st w =
        passBAxes g vsize th vs w.1 w.2.1 w.2.2.1 w.2.2.2 [0, 1, 2] st := rfl
    have hsw : spWorkEmit g vsize th w =
        [0, 1, 2].filterMap (spEmit g vsize th w.1 w.2.1 w.2.2.1 w.2.2.2) := rfl
    rw [List.foldl_cons, hstep] at h ⊢
    have hrest := ih _ h
    have hax := passBAxes_diag_false g vsize th vs w.1 w.2.1 w.2.2.1 w.2.2.2
      [0, 1, 2] st hrest.1
    refine ⟨hax.1, ?_, ?_⟩
    · rw [hrest.2.1, hax.2.1, List.flatMap_cons, List.length_append, hsw]
      omega
    · rw [List.flatMap_cons, List.length_append, hsw]
      rcases hax.2.2 with ha0 | hale <;> rcases hrest.2.2 with hr0 | hrle
      · left
        omega
      · right
        rw [hax.2.1] at hrle
        push_cast at hrle ⊢
        omega
      · right
        push_cast
        omega
      · right
        rw [hax.2.1] at hrle
        push_cast at hrle ⊢
        omega

/-! ### Emission inversion and the surface-point claims -/

/-- What it means for a point to lie on a zero-crossing edge: some
workload voxel o and its +x/+y/+z neighbor i have weights above the
threshold and TSDFs of opposite sign, and the point is the linear
zero-crossing interpolation on that edge, at ratio
(0 - tsdf_o)/(tsdf_i - tsdf_o), in units of voxel_size from the origin
voxel global coordinate. -/
def isCrossingPoint (g : Grid) (vsize th : ℚ) (pt : ℚ × ℚ × ℚ) : Prop :=
  ∃ k xv yv zv i vi,
    (k, xv, yv, zv) ∈ workloadList g.nActive g.res ∧ i < 3 ∧
    DeviceGetVoxelAt g ((xv : ℤ) + (if i = 0 then 1 else 0))
      ((yv : ℤ) + (if i = 1 then 1 else 0))
      ((zv : ℤ) + (if i = 2 then 1 else 0)) k = some vi ∧
    th < (g.voxel (g.indices k) (xv : ℤ) (yv : ℤ) (zv : ℤ)).weight ∧
    th < vi.weight ∧
    vi.tsdf * (g.voxel (g.indices k) (xv : ℤ) (yv : ℤ) (zv : ℤ)).tsdf < 0 ∧
    pt = (vsize *
            ((((g.blockKeys (g.indices k)).1 * (g.res : ℤ) + (xv : ℤ) : ℤ) : ℚ) +
              (0 - (g.voxel (g.indices k) (xv : ℤ) (yv : ℤ) (zv : ℤ)).tsdf) /
                  (vi.tsdf -
                    (g.voxel (g.indices k) (xv : ℤ) (yv : ℤ) (zv : ℤ)).tsdf) *
                (if i = 0 then 1 else 0)),
          vsize *
            ((((g.blockKeys (g.indices k)).2.1 * (g.res : ℤ) + (yv : ℤ) : ℤ) : ℚ) +
              (0 - (g.voxel (g.indices k) (xv : ℤ) (yv : ℤ) (zv : ℤ)).tsdf) /
                  (vi.tsdf -
                    (g.voxel (g.indices k) (xv : ℤ) (yv : ℤ) (zv : ℤ)).tsdf) *
                (if i = 1 then 1 else 0)),
          vsize *
            ((((g.blockKeys (g.indices k)).2.2 * (g.res : ℤ) + (zv : ℤ) : ℤ) : ℚ) +
              (0 - (g.voxel (g.indices k) (xv : ℤ) (yv : ℤ) (zv : ℤ)).tsdf) /
                  (vi.tsdf -
                    (g.voxel (g.indices k) (xv : ℤ) (yv : ℤ) (zv : ℤ)).tsdf) *
                (if i = 2 then 1 else 0)))

theorem spEmit_some_inv (g : Grid) (vsize th : ℚ) (k xv yv zv i : ℕ)
    (pt : ℚ × ℚ × ℚ) (h : spEmit g vsize th k xv yv zv i = some pt) :
    ∃ vi,
      DeviceGetVoxelAt g ((xv : ℤ) + (if i = 0 then 1 else 0))
        ((yv : ℤ) + (if i = 1 then 1 else 0))
        ((zv : ℤ) + (if i = 2 then 1 else 0)) k = some vi ∧
      th < (g.voxel (g.indices k) (xv : ℤ) (yv : ℤ) (zv : ℤ)).weight ∧
      th < vi.weight ∧
      vi.tsdf * (g.voxel (g.indices k) (xv : ℤ) (yv : ℤ) (zv : ℤ)).tsdf < 0 ∧
      pt = (vsize *
              ((((g.blockKeys (g.indices k)).1 * (g.res : ℤ) + (xv : ℤ) : ℤ) : ℚ) +
                (0 - (g.voxel (g.indices k) (xv : ℤ) (yv : ℤ) (zv : ℤ)).tsdf) /
                    (vi.tsdf -
                      (g.voxel (g.indices k) (xv : ℤ) (yv : ℤ) (zv : ℤ)).tsdf) *
                  (if i = 0 then 1 else 0)),
            vsize *
              ((((g.blockKeys (g.indices k)).2.1 * (g.res : ℤ) + (yv : ℤ) : ℤ) : ℚ) +
                (0 - (g.voxel (g.indices k) (xv : ℤ) (yv : ℤ) (zv : ℤ)).tsdf) /
                    (vi.tsdf -
                      (g.voxel (g.indices k) (xv : ℤ) (yv : ℤ) (zv : ℤ)).tsdf) *
                  (if i = 1 then 1 else 0)),
            vsize *
              ((((g.blockKeys (g.indices k)).2.2 * (g.res : ℤ) + (zv : ℤ) : ℤ) : ℚ) +
                (0 - (g.voxel (g.indices k) (xv : ℤ) (yv : ℤ) (zv : ℤ)).tsdf) /
                    (vi.tsdf -
                      (g.voxel (g.indices k) (xv : ℤ) (yv : ℤ) (zv : ℤ)).tsdf) *
                  (if i = 2 then 1 else 0))) := by
  simp only [spEmit] at h
  by_cases hw : (g.voxel (g.indices k) (xv : ℤ) (yv : ℤ) (zv : ℤ)).weight ≤ th
  · rw [if_pos hw] at h
    exact absurd h (by simp)
  · rw [if_neg hw] at h
    cases hnb : DeviceGetVoxelAt g ((xv : ℤ) + (if i = 0 then 1 else 0))
        ((yv : ℤ) + (if i = 1 then 1 else 0))
        ((zv : ℤ) + (if i = 2 then 1 else 0)) k with
    | none =>
      rw [hnb] at h
      exact absurd h (by simp)
    | some vi =>
      rw [hnb] at h
      dsimp only at h
      by_cases hc : th < vi.weight ∧
          vi.tsdf * (g.voxel (g.indices k) (xv : ℤ) (yv : ℤ) (zv : ℤ)).tsdf < 0
      · rw [if_pos hc] at h
        refine ⟨vi, rfl, not_le.mp hw, hc.1, hc.2, ?_⟩
        exact (Option.some_inj.mp h).symm
      · rw [if_neg hc] at h
        exact absurd h (by simp)

/-- Small integer division facts used to evaluate the concrete grids. -/
theorem fdiv_zero_two : Int.fdiv 0 2 = 0 := by decide

theorem fdiv_one_two : Int.fdiv 1 2 = 0 := by decide

theorem fdiv_two_two : Int.fdiv 2 2 = 1 := by decide

theorem emod_zero_two : Int.emod 0 2 = 0 := by decide

theorem emod_one_two : Int.emod 1 2 = 1 := by decide

theorem emod_two_two : Int.emod 2 2 = 0 := by decide

/-- Scenario S2: one active block of resolution 2 whose voxel (0,0,0) has
tsdf 1/2 and whose voxel (1,0,0) has tsdf -1/2, both with weight 1; every
other voxel is uninitialised.  Only the central neighbor entry (13) of
the neighbor table is present. -/
def gS2 : Grid where
  res := 2
  nBlocks := 1
  nActive := 1
  indices := fun _ => 0
  blockKeys := fun _ => (0, 0, 0)
  voxel := fun _ x y z =>
    if x = 0 ∧ y = 0 ∧ z = 0 then ⟨1/2, 1, 0, 0, 0⟩
    else if x = 1 ∧ y = 0 ∧ z = 0 then ⟨-(1/2), 1, 0, 0, 0⟩
    else ⟨0, 0, 0, 0, 0⟩
  nbIndices := fun _ _ => 0
  nbMasks := fun k nb => decide (k = 0) && decide (nb = 13)
  invIndices := fun _ => 0

theorem workloadList_one_two : workloadList 1 2 =
    [(0, 0, 0, 0), (0, 0, 0, 1), (0, 0, 1, 0), (0, 0, 1, 1),
     (0, 1, 0, 0), (0, 1, 0, 1), (0, 1, 1, 0), (0, 1, 1, 1)] := by decide

theorem gS2_passACount : passACount gS2 0 = 1 := by
  have h1 : gS2.nActive = 1 := rfl
  have h2 : gS2.res = 2 := rfl
  rw [passACount, h1, h2, workloadList_one_two]
  norm_num [passAVoxel, passAAxis, DeviceGetVoxelAt, gS2, fdiv_zero_two,
    fdiv_one_two, fdiv_two_two, emod_zero_two, emod_one_two, emod_two_two]

theorem gS2_passB : passB gS2 1 0 1 = ⟨1, [(0, (1/2, 0, 0))], false⟩ := by
  have h1 : gS2.nActive = 1 := rfl
  have h2 : gS2.res = 2 := rfl
  rw [passB, h1, h2, workloadList_one_two]
  norm_num [passBStep, passBAxes, spEmit, DeviceGetVoxelAt, gS2,
    fdiv_zero_two, fdiv_one_two, fdiv_two_two, emod_zero_two, emod_one_two,
    emod_two_two, PBState.mk.injEq]

theorem gS2_extract : ExtractSurfacePointsCPU gS2 1 0 (-1) =
    (⟨1, [(0, (1/2, 0, 0))], false⟩, 1) := by
  have hvs : ((-1 : ℤ) < 0) = True := by norm_num
  simp only [ExtractSurfacePointsCPU, hvs, if_true, gS2_passACount,
    Nat.cast_one, gS2_passB]

/-- C3: every point emitted by ExtractSurfacePoints corresponds to an
axis-aligned edge from a voxel o to its +x, +y or +z neighbor i with
TSDFs of opposite sign and both weights strictly above weight_threshold,
and its coordinates equal
voxel_size * (x + ratio*[a=0], y + ratio*[a=1], z + ratio*[a=2]) with
ratio = -tsdf_o/(tsdf_i - tsdf_o); in particular, in scenario S2 (two
voxels on the x-axis with tsdf 1/2 and -1/2, weight 1, threshold 0)
exactly one point is emitted, at the x-midpoint. -/
theorem C3_points_are_zero_crossings :
    (∀ (g : Grid) (vsize th : ℚ) (validSize : ℤ) (e : ℕ × (ℚ × ℚ × ℚ)),
      e ∈ (ExtractSurfacePointsCPU g vsize th validSize).1.written →
      isCrossingPoint g vsize th e.2) ∧
    (ExtractSurfacePointsCPU gS2 1 0 (-1)).1.written =
      [(0, (1/2, 0, 0))] := by
  constructor
  · intro g vsize th validSize e hmem
    have hpb : (ExtractSurfacePointsCPU g vsize th validSize).1 =
        passB g vsize th
          (if validSize < 0 then (passACount g th : ℤ) else validSize) := by
      simp only [ExtractSurfacePointsCPU]
    rw [hpb, passB] at hmem
    rcases passB_fold_written_mem g vsize th _ _ _ e hmem with h | ⟨_, w, hw, i, hi, hsp⟩
    · exact absurd h (List.not_mem_nil e)
    · rcases spEmit_some_inv g vsize th w.1 w.2.1 w.2.2.1 w.2.2.2 i e.2 hsp
        with ⟨vi, hnb, hwo, hwi, hsign, hpt⟩
      refine ⟨w.1, w.2.1, w.2.2.1, w.2.2.2, i, vi, hw, ?_, hnb, hwo, hwi,
        hsign, hpt⟩
      simp only [List.mem_cons, List.not_mem_nil, or_false] at hi
      rcases hi with rfl | rfl | rfl <;> norm_num
  · rw [gS2_extract]

/-- Witness for C3: the point of scenario S2 is indeed a zero-crossing
point of gS2. -/
theorem C3_witness : isCrossingPoint gS2 1 0 (1/2, 0, 0) := by
  refine C3_points_are_zero_crossings.1 gS2 1 0 (-1) (0, (1/2, 0, 0)) ?_
  rw [C3_points_are_zero_crossings.2]
  exact List.mem_singleton.mpr rfl

/-- C4: with a negative valid_size, Pass A's atomic crossing count equals
the number of points Pass B writes: both passes apply the same predicate
to the same immutable voxel data, the points buffer bound is exactly the
counted length, the indices written are exactly 0..count-1, no emission
is dropped by the overflow guard, and the reported valid_size equals the
count. -/
theorem C4_two_pass_exact (g : Grid) (vsize th : ℚ) (validSize : ℤ)
    (hneg : validSize < 0) :
    passACount g th = (emitList g vsize th).length ∧
    (ExtractSurfacePointsCPU g vsize th validSize).1.written.map Prod.snd =
      emitList g vsize th ∧
    (ExtractSurfacePointsCPU g vsize th validSize).1.written.map Prod.fst =
      List.range (passACount g th) ∧
    (ExtractSurfacePointsCPU g vsize th validSize).1.diag = false ∧
    (ExtractSurfacePointsCPU g vsize th validSize).2 =
      (passACount g th : ℤ) := by
  have hA := passACount_eq g vsize th
  have heml : emitList g vsize th =
      (workloadList g.nActive g.res).flatMap (spWorkEmit g vsize th) := rfl
  have hif : ExtractSurfacePointsCPU g vsize th validSize =
      (passB g vsize th (passACount g th : ℤ),
       ((passB g vsize th (passACount g th : ℤ)).count : ℤ)) := by
    simp only [ExtractSurfacePointsCPU, if_pos hneg]
  have hfold := passB_fold_append g vsize th (passACount g th : ℤ)
    (workloadList g.nActive g.res) ⟨0, [], false⟩ (by
      dsimp only
      rw [← heml, ← hA]
      push_cast
      omega)
  have hpb : passB g vsize th (passACount g th : ℤ) =
      ⟨0 + (emitList g vsize th).length,
       [] ++ List.enumFrom 0 (emitList g vsize th), false⟩ := by
    rw [passB, hfold, heml]
  refine ⟨hA, ?_, ?_, ?_, ?_⟩
  · rw [hif]
    dsimp only
    rw [hpb]
    dsimp only
    rw [List.nil_append, enumFrom_map_snd_eq]
  · rw [hif]
    dsimp only
    rw [hpb]
    dsimp only
    rw [List.nil_append, enumFrom_map_fst_eq, hA, List.range_eq_range']
  · rw [hif]
    dsimp only
    rw [hpb]
  · rw [hif]
    dsimp only
    rw [hpb]
    dsimp only
    rw [hA]
    push_cast
    omega

/-- Witness for C4: the two-pass flow at scenario S2 with valid_size
-1. -/
theorem C4_witness :
    (-1 : ℤ) < 0 ∧
    (passACount gS2 0 = (emitList gS2 1 0).length ∧
      (ExtractSurfacePointsCPU gS2 1 0 (-1)).1.written.map Prod.snd =
        emitList gS2 1 0 ∧
      (ExtractSurfacePointsCPU gS2 1 0 (-1)).1.written.map Prod.fst =
        List.range (passACount gS2 0) ∧
      (ExtractSurfacePointsCPU gS2 1 0 (-1)).1.diag = false ∧
      (ExtractSurfacePointsCPU gS2 1 0 (-1)).2 = (passACount gS2 0 : ℤ)) :=
  ⟨by norm_num, C4_two_pass_exact gS2 1 0 (-1) (by norm_num)⟩

/-- The C5 counterexample grid: like gS2 but with a second crossing, on
the +y edge of voxel (0,0,0): voxel (0,1,0) also has tsdf -1/2 and
weight 1. -/
def gC5 : Grid where
  res := 2
  nBlocks := 1
  nActive := 1
  indices := fun _ => 0
  blockKeys := fun _ => (0, 0, 0)
  voxel := fun _ x y z =>
    if x = 0 ∧ y = 0 ∧ z = 0 then ⟨1/2, 1, 0, 0, 0⟩
    else if x = 1 ∧ y = 0 ∧ z = 0 then ⟨-(1/2), 1, 0, 0, 0⟩
    else if x = 0 ∧ y = 1 ∧ z = 0 then ⟨-(1/2), 1, 0, 0, 0⟩
    else ⟨0, 0, 0, 0, 0⟩
  nbIndices := fun _ _ => 0
  nbMasks := fun k nb => decide (k = 0) && decide (nb = 13)
  invIndices := fun _ => 0

theorem gC5_passACount : passACount gC5 0 = 2 := by
  have h1 : gC5.nActive = 1 := rfl
  have h2 : gC5.res = 2 := rfl
  rw [passACount, h1, h2, workloadList_one_two]
  norm_num [passAVoxel, passAAxis, DeviceGetVoxelAt, gC5, fdiv_zero_two,
    fdiv_one_two, fdiv_two_two, emod_zero_two, emod_one_two, emod_two_two]

theorem gC5_passB : passB gC5 1 0 0 = ⟨1, [], true⟩ := by
  have h1 : gC5.nActive = 1 := rfl
  have h2 : gC5.res = 2 := rfl
  rw [passB, h1, h2, workloadList_one_two]
  norm_num [passBStep, passBAxes, spEmit, DeviceGetVoxelAt, gC5,
    fdiv_zero_two, fdiv_one_two, fdiv_two_two, emod_zero_two, emod_one_two,
    emod_two_two, PBState.mk.injEq]

/-- Counterexample to C5 as stated: at gC5 with caller-supplied
valid_size 0, the overflow return skips the second crossing of voxel
(0,0,0), so the reported valid_size is 1 although the volume holds 2 zero
crossings (Pass A counts 2). -/
theorem C5_counterexample :
    (ExtractSurfacePointsCPU gC5 1 0 0).2 = 1 ∧
    passACount gC5 0 = 2 ∧
    (ExtractSurfacePointsCPU gC5 1 0 0).2 ≠ (passACount gC5 0 : ℤ) ∧
    (passB gC5 1 0 0).diag = true := by
  have hex : ExtractSurfacePointsCPU gC5 1 0 0 =
      (passB gC5 1 0 0, ((passB gC5 1 0 0).count : ℤ)) := by
    simp only [ExtractSurfacePointsCPU]
    norm_num
  refine ⟨?_, gC5_passACount, ?_, ?_⟩
  · rw [hex]
    dsimp only
    rw [gC5_passB]
    norm_num
  · rw [hex, gC5_passACount]
    dsimp only
    rw [gC5_passB]
    norm_num
  · rw [gC5_passB]

/-- C5 as amended: if the caller-supplied valid_size is exceeded during
emission, the kernel prints the diagnostic and never writes a point at an
index at or beyond valid_size; the output valid_size reports the final
counter value, which is at most the Pass-A crossing total and can be
strictly below it, because the overflow return skips the remaining axes
of the current voxel. -/
theorem C5_overflow_truncates_report (g : Grid) (vsize th : ℚ)
    (validSize : ℤ) (hvs : 0 ≤ validSize) :
    (∀ e ∈ (ExtractSurfacePointsCPU g vsize th validSize).1.written,
      (e.1 : ℤ) < validSize) ∧
    (ExtractSurfacePointsCPU g vsize th validSize).2 =
      ((passB g vsize th validSize).count : ℤ) ∧
    (passB g vsize th validSize).count ≤ passACount g th ∧
    (validSize < (passACount g th : ℤ) →
      (passB g vsize th validSize).diag = true) := by
  have hif : ExtractSurfacePointsCPU g vsize th validSize =
      (passB g vsize th validSize,
       ((passB g vsize th validSize).count : ℤ)) := by
    simp only [ExtractSurfacePointsCPU, if_neg (not_lt.mpr hvs)]
  have heml : emitList g vsize th =
      (workloadList g.nActive g.res).flatMap (spWorkEmit g vsize th) := rfl
  refine ⟨?_, ?_, ?_, ?_⟩
  · intro e hmem
    rw [hif] at hmem
    dsimp only at hmem
    rw [passB] at hmem
    rcases passB_fold_written_mem g vsize th validSize _ _ e hmem with
      h | ⟨h1, _, _, _, _, _⟩
    · exact absurd h (List.not_mem_nil e)
    · exact h1
  · rw [hif]
  · have := passB_fold_count_le g vsize th validSize
      (workloadList g.nActive g.res) ⟨0, [], false⟩
    rw [passB]
    rw [passACount_eq g vsize th, heml]
    simpa using this
  · intro hlt
    by_contra hdiag
    rw [Bool.not_eq_true] at hdiag
    rw [passB] at hdiag
    have hdf := passB_fold_diag_false g vsize th validSize
      (workloadList g.nActive g.res) ⟨0, [], false⟩ hdiag
    rw [passACount_eq g vsize th, heml] at hlt
    rcases hdf.2.2 with h0 | hle
    · rw [h0] at hlt
      push_cast at hlt
      omega
    · dsimp only at hle
      push_cast at hle hlt
      omega

/-- Witness for C5 amended: at gC5 with valid_size 0, no point is
written below index 0, the report is the final counter 1, which is below
the Pass-A total 2, and the diagnostic fired. -/
theorem C5_witness :
    (0 : ℤ) ≤ 0 ∧
    ((∀ e ∈ (ExtractSurfacePointsCPU gC5 1 0 0).1.written,
        (e.1 : ℤ) < 0) ∧
      (ExtractSurfacePointsCPU gC5 1 0 0).2 =
        ((passB gC5 1 0 0).count : ℤ) ∧
      (passB gC5 1 0 0).count ≤ passACount gC5 0 ∧
      ((0 : ℤ) < (passACount gC5 0 : ℤ) →
        (passB gC5 1 0 0).diag = true)) :=
  ⟨le_refl 0, C5_overflow_truncates_report gC5 1 0 0 (le_refl 0)⟩

/-! ## ExtractSurfaceMeshCPU: mesh structure, vertex allocation, edge
resolution -/

/-- Modelled from the spec: the canonical Marching Cubes corner offsets
vtx_shifts[8][3] (spec 6.2), the unit cube corners. -/
def vtxShifts : ℕ → ℤ × ℤ × ℤ
  | 0 => (0, 0, 0)
  | 1 => (1, 0, 0)
  | 2 => (1, 1, 0)
  | 3 => (0, 1, 0)
  | 4 => (0, 0, 1)
  | 5 => (1, 0, 1)
  | 6 => (1, 1, 1)
  | 7 => (0, 1, 1)
  | _ => (0, 0, 0)

/-- Modelled from the spec: the canonical Marching Cubes table
edge_shifts[12][4] (spec 6.2): for each of the 12 cube edges, the offset
(dxv, dyv, dzv) of the voxel owning the edge and the axis of the edge. -/
def edgeShifts : ℕ → ℤ × ℤ × ℤ × ℤ
  | 0 => (0, 0, 0, 0)
  | 1 => (1, 0, 0, 1)
  | 2 => (0, 1, 0, 0)
  | 3 => (0, 0, 0, 1)
  | 4 => (0, 0, 1, 0)
  | 5 => (1, 0, 1, 1)
  | 6 => (0, 1, 1, 0)
  | 7 => (0, 0, 1, 1)
  | 8 => (0, 0, 0, 2)
  | 9 => (1, 0, 0, 2)
  | 10 => (1, 1, 0, 2)
  | 11 => (0, 1, 0, 2)
  | _ => (0, 0, 0, 0)

/-- A cell of the mesh-structure tensor: block position in the processed
index list, local voxel coordinate, channel (0..2 edge channels, 3 table
index). -/
def MeshStruct : Type := (ℤ × ℤ × ℤ × ℤ × ℤ) → ℤ

/-- The mesh-structure cell of channel e of the voxel of workload w. -/
def meshCell (w : ℕ × ℕ × ℕ × ℕ) (e : ℤ) : ℤ × ℤ × ℤ × ℤ × ℤ :=
  ((w.1 : ℤ), (w.2.1 : ℤ), (w.2.2.1 : ℤ), (w.2.2.2 : ℤ), e)

/-- The three edge cells of a workload voxel, in channel order. -/
def voxelCells (w : ℕ × ℕ × ℕ × ℕ) : List (ℤ × ℤ × ℤ × ℤ × ℤ) :=
  [meshCell w 0, meshCell w 1, meshCell w 2]

/-- All edge cells of the mesh structure, in workload order. -/
def meshCells (nA R : ℕ) : List (ℤ × ℤ × ℤ × ℤ × ℤ) :=
  (workloadList nA R).flatMap voxelCells

/-- The edge cells marked -1 (a vertex is required there). -/
def markedCells (m : MeshStruct) (cs : List (ℤ × ℤ × ℤ × ℤ × ℤ)) :
    List (ℤ × ℤ × ℤ × ℤ × ℤ) :=
  cs.filter (fun c => m c = -1)

/-- Pass 1 of ExtractSurfaceMeshCPU per workload (lines 653-682): early
quit when no channel is marked, else count the marked channels. -/
def pass1Voxel (m : MeshStruct) (w : ℕ × ℕ × ℕ × ℕ) : ℕ :=
  if m (meshCell w 0) ≠ -1 ∧ m (meshCell w 1) ≠ -1 ∧
      m (meshCell w 2) ≠ -1 then 0
  else ((voxelCells w).map (fun c => if m c = -1 then 1 else 0)).sum

/-- Pass 1 of ExtractSurfaceMeshCPU: the atomic vertex count. -/
def pass1Count (m : MeshStruct) (nA R : ℕ) : ℕ :=
  ((workloadList nA R).map (pass1Voxel m)).sum

/-- State threaded through Pass 2: the atomic vertex counter, the mesh
structure being overwritten, and the (index, cell) allocations made. -/
structure P2State where
  count : ℕ
  mesh : MeshStruct
  assigned : List (ℕ × (ℤ × ℤ × ℤ × ℤ × ℤ))

/-- Pass 2 per-edge step of ExtractSurfaceMeshCPU (lines 785-798,
restricted to the vertex-index bookkeeping): skip a channel that is not
marked -1; otherwise fetch-and-increment the counter and overwrite the
channel with the fetched index. -/
def pass2Edge (st : P2State) (c : ℤ × ℤ × ℤ × ℤ × ℤ) : P2State :=
  if st.mesh c ≠ -1 then st
  else
    { count := st.count + 1,
      mesh := fun c2 => if c2 = c then (st.count : ℤ) else st.mesh c2,
      assigned := st.assigned ++ [(st.count, c)] }

/-- Pass 2 per-workload step (lines 763-798): early quit when no channel
is marked, else the three per-edge steps in channel order. -/
def pass2Voxel (st : P2State) (w : ℕ × ℕ × ℕ × ℕ) : P2State :=
  if st.mesh (meshCell w 0) ≠ -1 ∧ st.mesh (meshCell w 1) ≠ -1 ∧
      st.mesh (meshCell w 2) ≠ -1 then st
  else (voxelCells w).foldl pass2Edge st

/-- Pass 2 of ExtractSurfaceMeshCPU over the whole workload space,
starting from the Pass 0 mesh structure m0 and counter 0. -/
def pass2 (m0 : MeshStruct) (nA R : ℕ) : P2State :=
  (workloadList nA R).foldl pass2Voxel ⟨0, m0, []⟩

/-! ### Nodup of the workload enumeration -/

theorem nat_decode_reconstruct (R v : ℕ) :
    R * (R * (v / (R * R)) + v / R % R) + v % R = v := by
  have h1 : R * (v / R) + v % R = v := Nat.div_add_mod v R
  have h2 : R * (v / R / R) + v / R % R = v / R := Nat.div_add_mod (v / R) R
  have h3 : v / R / R = v / (R * R) := Nat.div_div_eq_div_mul v R R
  calc R * (R * (v / (R * R)) + v / R % R) + v % R
      = R * (R * (v / R / R) + v / R % R) + v % R := by rw [h3]
    _ = R * (v / R) + v % R := by rw [h2]
    _ = v := h1

theorem workloadList_nodup (nA R : ℕ) : (workloadList nA R).Nodup := by
  rw [workloadList]
  refine List.Nodup.map_on ?_ (List.nodup_range _)
  intro w1 _ w2 _ heq
  simp only [voxelCoord, Prod.mk.injEq] at heq
  obtain ⟨hk, hx, hy, hz⟩ := heq
  have hv : w1 % (R * R * R) = w2 % (R * R * R) := by
    rw [← nat_decode_reconstruct R (w1 % (R * R * R)),
      ← nat_decode_reconstruct R (w2 % (R * R * R)), hx, hy, hz]
  have t1 : R * R * R * (w1 / (R * R * R)) + w1 % (R * R * R) = w1 :=
    Nat.div_add_mod w1 (R * R * R)
  have t2 : R * R * R * (w2 / (R * R * R)) + w2 % (R * R * R) = w2 :=
    Nat.div_add_mod w2 (R * R * R)
  rw [← t1, ← t2, hk, hv]

theorem nodup_flatMap_of_disjoint {α β : Type} (l : List α)
    (f : α → List β) (hn : l.Nodup) (hf : ∀ a ∈ l, (f a).Nodup)
    (hdisj : ∀ a1 ∈ l, ∀ a2 ∈ l, a1 ≠ a2 →
      ∀ b, b ∈ f a1 → b ∈ f a2 → False) :
    (l.flatMap f).Nodup := by
  induction l with
  | nil => simp
  | cons a t ih =>
    rw [List.flatMap_cons]
    refine List.Nodup.append (hf a (List.mem_cons_self a t)) ?_ ?_
    · refine ih (List.Nodup.of_cons hn) (fun a2 h2 => hf a2 (List.mem_cons_of_mem a h2))
        (fun a1 h1 a2 h2 hne b hb1 hb2 => hdisj a1 (List.mem_cons_of_mem a h1)
          a2 (List.mem_cons_of_mem a h2) hne b hb1 hb2)
    · rw [List.disjoint_left]
      intro b hb hb2
      rcases List.mem_flatMap.mp hb2 with ⟨a2, ha2, hba2⟩
      have hne : a ≠ a2 := by
        rintro rfl
        exact (List.nodup_cons.mp hn).1 ha2
      exact hdisj a (List.mem_cons_self a t) a2 (List.mem_cons_of_mem a ha2)
        hne b hb hba2

theorem meshCell_inj_workload (w1 w2 : ℕ × ℕ × ℕ × ℕ) (e1 e2 : ℤ)
    (h : meshCell w1 e1 = meshCell w2 e2) : w1 = w2 ∧ e1 = e2 := by
  simp only [meshCell, Prod.mk.injEq, Int.natCast_inj] at h
  obtain ⟨h1, h2, h3, h4, h5⟩ := h
  exact ⟨by
    rcases w1 with ⟨a, b, c, d⟩
    rcases w2 with ⟨a2, b2, c2, d2⟩
    simp_all, h5⟩

theorem meshCells_nodup (nA R : ℕ) : (meshCells nA R).Nodup := by
  rw [meshCells]
  refine nodup_flatMap_of_disjoint _ _ (workloadList_nodup nA R) ?_ ?_
  · intro w _
    simp only [voxelCells, List.nodup_cons, List.mem_cons,
      List.not_mem_nil, List.mem_singleton, List.nodup_nil]
    refine ⟨?_, ?_, not_false, trivial⟩
    · rintro (h | h | h)
      · exact absurd (meshCell_inj_workload w w 0 1 h).2 (by norm_num)
      · exact absurd (meshCell_inj_workload w w 0 2 h).2 (by norm_num)
      · exact h
    · rintro (h | h)
      · exact absurd (meshCell_inj_workload w w 1 2 h).2 (by norm_num)
      · exact h
  · intro w1 _ w2 _ hne b hb1 hb2
    simp only [voxelCells, List.mem_cons, List.not_mem_nil, or_false,
      List.mem_singleton] at hb1 hb2
    have hw : w1 = w2 := by
      rcases hb1 with rfl | rfl | rfl <;> rcases hb2 with h | h | h <;>
        exact (meshCell_inj_workload w2 w1 _ _ h.symm).1.symm
    exact hne hw

/-! ### Pass 1 counts the marked cells, Pass 2 allocates each exactly
once -/

theorem sum_indicator_eq_filter_length (m : MeshStruct)
    (cs : List (ℤ × ℤ × ℤ × ℤ × ℤ)) :
    ((cs.map (fun c => if m c = -1 then 1 else 0)).sum : ℕ) =
      (markedCells m cs).length := by
  induction cs with
  | nil => rfl
  | cons c t ih =>
    by_cases h : m c = -1 <;>
      simp [markedCells, List.filter_cons, h, ih, markedCells] at ih ⊢ <;>
        omega

theorem pass1Voxel_eq (m : MeshStruct) (w : ℕ × ℕ × ℕ × ℕ) :
    pass1Voxel m w = (markedCells m (voxelCells w)).length := by
  rw [pass1Voxel]
  split
  · rename_i h
    simp [markedCells, voxelCells, List.filter_cons, h.1, h.2.1, h.2.2]
  · exact sum_indicator_eq_filter_length m (voxelCells w)

theorem markedCells_append (m : MeshStruct)
    (l1 l2 : List (ℤ × ℤ × ℤ × ℤ × ℤ)) :
    markedCells m (l1 ++ l2) = markedCells m l1 ++ markedCells m l2 := by
  simp [markedCells, List.filter_append]

theorem pass1Count_eq (m : MeshStruct) (nA R : ℕ) :
    pass1Count m nA R = (markedCells m (meshCells nA R)).length := by
  rw [pass1Count, meshCells]
  induction workloadList nA R with
  | nil => rfl
  | cons w t ih =>
    rw [List.map_cons, List.flatMap_cons, markedCells_append,
      List.length_append, List.sum_cons, ih, pass1Voxel_eq]

theorem pass2Voxel_eq_fold (st : P2State) (w : ℕ × ℕ × ℕ × ℕ) :
    pass2Voxel st w = (voxelCells w).foldl pass2Edge st := by
  rw [pass2Voxel]
  split
  · rename_i h
    simp [voxelCells, pass2Edge, h.1, h.2.1, h.2.2]
  · rfl

theorem foldl_flatMap {α β σ : Type} (l : List α) (f : α → List β)
    (g : σ → β → σ) (s : σ) :
    (l.flatMap f).foldl g s = l.foldl (fun s a => (f a).foldl g s) s := by
  induction l generalizing s with
  | nil => rfl
  | cons a t ih => simp [List.flatMap_cons, List.foldl_append, ih]

theorem pass2_eq_cells (m0 : MeshStruct) (nA R : ℕ) :
    pass2 m0 nA R = (meshCells nA R).foldl pass2Edge ⟨0, m0, []⟩ := by
  rw [pass2, meshCells, foldl_flatMap]
  have hfun : (fun (s : P2State) (w : ℕ × ℕ × ℕ × ℕ) =>
      (voxelCells w).foldl pass2Edge s) = pass2Voxel := by
    funext s w
    exact (pass2Voxel_eq_fold s w).symm
  rw [hfun]

theorem pass2Edge_fold (m0 : MeshStruct) :
    ∀ (cs : List (ℤ × ℤ × ℤ × ℤ × ℤ)) (st : P2State),
      cs.Nodup → (∀ c ∈ cs, st.mesh c = m0 c) →
      (cs.foldl pass2Edge st).count =
          st.count + (markedCells m0 cs).length ∧
      (cs.foldl pass2Edge st).assigned =
          st.assigned ++ List.enumFrom st.count (markedCells m0 cs) ∧
      (∀ c, c ∉ cs → (cs.foldl pass2Edge st).mesh c = st.mesh c) ∧
      (∀ c ∈ cs, m0 c = -1 →
        ∃ j, (j, c) ∈ (cs.foldl pass2Edge st).assigned ∧
          (cs.foldl pass2Edge st).mesh c = (j : ℤ)) := by
  intro cs
  induction cs with
  | nil =>
    intro st _ _
    refine ⟨by simp [markedCells], by simp [markedCells], fun c _ => rfl,
      fun c hc => absurd hc (List.not_mem_nil c)⟩
  | cons c t ih =>
    intro st hnd hag
    have hcnotin : c ∉ t := (List.nodup_cons.mp hnd).1
    have hagc : st.mesh c = m0 c := hag c (List.mem_cons_self c t)
    by_cases hm : m0 c = -1
    · have hstep : pass2Edge st c =
          ⟨st.count + 1,
           fun c2 => if c2 = c then (st.count : ℤ) else st.mesh c2,
           st.assigned ++ [(st.count, c)]⟩ := by
        rw [pass2Edge, if_neg (by rw [hagc, hm]; simp)]
      rw [List.foldl_cons, hstep]
      have hmk : markedCells m0 (c :: t) = c :: markedCells m0 t := by
        simp [markedCells, List.filter_cons, hm]
      have hagt : ∀ c2 ∈ t, (pass2Edge st c).mesh c2 = m0 c2 := by
        intro c2 h2
        rw [hstep]
        dsimp only
        rw [if_neg (by rintro rfl; exact hcnotin h2)]
        exact hag c2 (List.mem_cons_of_mem c h2)
      have hin := ih (pass2Edge st c) (List.Nodup.of_cons hnd) hagt
      rw [hstep] at hin
      dsimp only at hin
      refine ⟨?_, ?_, ?_, ?_⟩
      · rw [hin.1, hmk]
        simp only [List.length_cons]
        omega
      · rw [hin.2.1, hmk, List.enumFrom_cons, List.append_assoc,
          List.singleton_append]
      · intro c2 hc2
        have h2t : c2 ∉ t := fun h => hc2 (List.mem_cons_of_mem c h)
        have h2c : c2 ≠ c := fun h => hc2 (h ▸ List.mem_cons_self c t)
        rw [hin.2.2.1 c2 h2t]
        exact if_neg h2c
      · intro c2 hc2 hm2
        rcases List.mem_cons.mp hc2 with rfl | h2t
        · refine ⟨st.count, ?_, ?_⟩
          · rw [hin.2.1]
            exact List.mem_append_left _ (List.mem_append_right _
              (List.mem_singleton.mpr rfl))
          · rw [hin.2.2.1 c2 hcnotin]
            exact if_pos rfl
        · exact hin.2.2.2 c2 h2t hm2
    · have hstep : pass2Edge st c = st := by
        rw [pass2Edge, if_pos (by rw [hagc]; exact hm)]
      have hmk : markedCells m0 (c :: t) = markedCells m0 t := by
        simp [markedCells, List.filter_cons, hm]
      have hin := ih st (List.Nodup.of_cons hnd)
        (fun c2 h2 => hag c2 (List.mem_cons_of_mem c h2))
      rw [List.foldl_cons, hstep]
      refine ⟨by rw [hin.1, hmk], by rw [hin.2.1, hmk], ?_, ?_⟩
      · intro c2 hc2
        exact hin.2.2.1 c2 (fun h => hc2 (List.mem_cons_of_mem c h))
      · intro c2 hc2 hm2
        rcases List.mem_cons.mp hc2 with rfl | h2t
        · exact absurd hm2 hm
        · exact hin.2.2.2 c2 h2t hm2

/-! ### Edge ownership resolution (Pass 0 marking and Pass 3 corner
lookup) -/

/-- The neighbor-table index consulted by Pass 0 lines 608-624 and Pass 3
lines 893-907: truncating division of the edge-shifted local coordinate
by the resolution, per axis. -/
def edgeNbIdx (g : Grid) (xv yv zv e : ℕ) : ℤ :=
  (Int.tdiv ((xv : ℤ) + (edgeShifts e).1) (g.res : ℤ) + 1) +
  (Int.tdiv ((yv : ℤ) + (edgeShifts e).2.1) (g.res : ℤ) + 1) * 3 +
  (Int.tdiv ((zv : ℤ) + (edgeShifts e).2.2.1) (g.res : ℤ) + 1) * 9

/-- The per-axis block offsets of the voxel owning edge e of voxel
(xv,yv,zv). -/
def edgeBlockShift (g : Grid) (xv yv zv e : ℕ) : ℤ × ℤ × ℤ :=
  (Int.tdiv ((xv : ℤ) + (edgeShifts e).1) (g.res : ℤ),
   Int.tdiv ((yv : ℤ) + (edgeShifts e).2.1) (g.res : ℤ),
   Int.tdiv ((zv : ℤ) + (edgeShifts e).2.2.1) (g.res : ℤ))

/-- The mesh-structure cell holding the vertex of edge e of voxel
(xv,yv,zv) at block position k, exactly as computed by Pass 3 (lines
893-913 of the source; Pass 0 lines 608-633 store -1 through the same
computation): the edge-shifted coordinate is split by truncating
division, the neighbor slot is read from nb_indices without consulting
nb_masks, and inv_indices maps the slot back to a block position. -/
def resolveCell (g : Grid) (k xv yv zv e : ℕ) : ℤ × ℤ × ℤ × ℤ × ℤ :=
  let xvi : ℤ := (xv : ℤ) + (edgeShifts e).1
  let yvi : ℤ := (yv : ℤ) + (edgeShifts e).2.1
  let zvi : ℤ := (zv : ℤ) + (edgeShifts e).2.2.1
  let dxb : ℤ := Int.tdiv xvi (g.res : ℤ)
  let dyb : ℤ := Int.tdiv yvi (g.res : ℤ)
  let dzb : ℤ := Int.tdiv zvi (g.res : ℤ)
  let nb : ℤ := (dxb + 1) + (dyb + 1) * 3 + (dzb + 1) * 9
  (g.invIndices (g.nbIndices k nb),
   xvi - dxb * (g.res : ℤ), yvi - dyb * (g.res : ℤ),
   zvi - dzb * (g.res : ℤ),
   (edgeShifts e).2.2.2)

/-- The Pass 3 triangle-corner read: the vertex index stored in the
owning voxel channel (line 918 of the source). -/
def pass3Corner (g : Grid) (m : MeshStruct) (k xv yv zv e : ℕ) : ℤ :=
  m (resolveCell g k xv yv zv e)

/-- The global identity of edge e of voxel (xv,yv,zv) of block position
k: the global voxel coordinate of the owning voxel together with the
edge axis. -/
def globalEdge (g : Grid) (k xv yv zv e : ℕ) : ℤ × ℤ × ℤ × ℤ :=
  ((g.blockKeys (g.indices k)).1 * (g.res : ℤ) + (xv : ℤ) + (edgeShifts e).1,
   (g.blockKeys (g.indices k)).2.1 * (g.res : ℤ) + (yv : ℤ) +
     (edgeShifts e).2.1,
   (g.blockKeys (g.indices k)).2.2 * (g.res : ℤ) + (zv : ℤ) +
     (edgeShifts e).2.2.1,
   (edgeShifts e).2.2.2)

/-- Consistency of one neighbor-table entry with the active set: the
inverse index of the stored slot is an in-range block position whose key
is the current block key shifted by the given offsets. -/
def NbOK (g : Grid) (k : ℕ) (dxb dyb dzb : ℤ) : Prop :=
  0 ≤ g.invIndices (g.nbIndices k ((dxb + 1) + (dyb + 1) * 3 + (dzb + 1) * 9)) ∧
  (g.invIndices (g.nbIndices k
      ((dxb + 1) + (dyb + 1) * 3 + (dzb + 1) * 9))).toNat < g.nActive ∧
  g.blockKeys (g.indices (g.invIndices (g.nbIndices k
      ((dxb + 1) + (dyb + 1) * 3 + (dzb + 1) * 9))).toNat) =
    ((g.blockKeys (g.indices k)).1 + dxb,
     (g.blockKeys (g.indices k)).2.1 + dyb,
     (g.blockKeys (g.indices k)).2.2 + dzb)

/-- Distinct processed block positions hold distinct block keys. -/
def KeysInj (g : Grid) : Prop :=
  ∀ k1 : ℕ, k1 < g.nActive → ∀ k2 : ℕ, k2 < g.nActive →
    g.blockKeys (g.indices k1) = g.blockKeys (g.indices k2) → k1 = k2

theorem edgeShifts_bounds (e : ℕ) :
    0 ≤ (edgeShifts e).1 ∧ (edgeShifts e).1 ≤ 1 ∧
    0 ≤ (edgeShifts e).2.1 ∧ (edgeShifts e).2.1 ≤ 1 ∧
    0 ≤ (edgeShifts e).2.2.1 ∧ (edgeShifts e).2.2.1 ≤ 1 := by
  match e with
  | 0 => decide
  | 1 => decide
  | 2 => decide
  | 3 => decide
  | 4 => decide
  | 5 => decide
  | 6 => decide
  | 7 => decide
  | 8 => decide
  | 9 => decide
  | 10 => decide
  | 11 => decide
  | (n + 12) => simp [show edgeShifts (n + 12) = (0, 0, 0, 0) from rfl]

theorem tdiv_zero_or_one (a R : ℤ) (h0 : 0 ≤ a) (h1 : a ≤ R)
    (hR : 0 < R) :
    (Int.tdiv a R = 0 ∨ Int.tdiv a R = 1) ∧
    0 ≤ a - Int.tdiv a R * R ∧ a - Int.tdiv a R * R < R := by
  have htd : Int.tdiv a R = a / R := Int.tdiv_eq_ediv h0 (le_of_lt hR)
  rcases lt_or_eq_of_le h1 with hlt | heq
  · have hz : a / R = 0 := Int.ediv_eq_zero_of_lt h0 hlt
    rw [htd, hz]
    exact ⟨Or.inl rfl, by omega, by omega⟩
  · subst heq
    rw [htd, Int.ediv_self (by omega)]
    exact ⟨Or.inr rfl, by omega, by omega⟩

theorem mul_add_lt_inj (R A1 A2 l1 l2 : ℤ) (hR : 0 < R)
    (h1 : 0 ≤ l1) (h2 : l1 < R) (h3 : 0 ≤ l2) (h4 : l2 < R)
    (h : R * A1 + l1 = R * A2 + l2) : A1 = A2 ∧ l1 = l2 := by
  have hA : A1 = A2 := by
    rcases lt_trichotomy A1 A2 with hlt | heq | hgt
    · exfalso
      have hd : (1 : ℤ) ≤ A2 - A1 := by omega
      have hmono : R * 1 ≤ R * (A2 - A1) :=
        mul_le_mul_of_nonneg_left hd (le_of_lt hR)
      have hms : R * (A2 - A1) = R * A2 - R * A1 := mul_sub R A2 A1
      linarith
    · exact heq
    · exfalso
      have hd : (1 : ℤ) ≤ A1 - A2 := by omega
      have hmono : R * 1 ≤ R * (A1 - A2) :=
        mul_le_mul_of_nonneg_left hd (le_of_lt hR)
      have hms : R * (A1 - A2) = R * A1 - R * A2 := mul_sub R A1 A2
      linarith
  refine ⟨hA, ?_⟩
  rw [hA] at h
  linarith

/-- One side of the resolution: the resolved cell of an edge has an
in-range block position whose key-based global coordinate recovers the
global edge identity, and a local coordinate inside [0, R). -/
theorem resolveCell_global (g : Grid) (k xv yv zv e : ℕ)
    (hR : 0 < g.res) (hx : xv < g.res) (hy : yv < g.res) (hz : zv < g.res)
    (hnb : NbOK g k (edgeBlockShift g xv yv zv e).1
      (edgeBlockShift g xv yv zv e).2.1 (edgeBlockShift g xv yv zv e).2.2) :
    0 ≤ (resolveCell g k xv yv zv e).1 ∧
    ((resolveCell g k xv yv zv e).1).toNat < g.nActive ∧
    (g.res : ℤ) *
        (g.blockKeys (g.indices ((resolveCell g k xv yv zv e).1).toNat)).1 +
        (resolveCell g k xv yv zv e).2.1 = (globalEdge g k xv yv zv e).1 ∧
    (g.res : ℤ) *
        (g.blockKeys (g.indices ((resolveCell g k xv yv zv e).1).toNat)).2.1 +
        (resolveCell g k xv yv zv e).2.2.1 =
      (globalEdge g k xv yv zv e).2.1 ∧
    (g.res : ℤ) *
        (g.blockKeys (g.indices ((resolveCell g k xv yv zv e).1).toNat)).2.2 +
        (resolveCell g k xv yv zv e).2.2.2.1 =
      (globalEdge g k xv yv zv e).2.2.1 ∧
    (0 ≤ (resolveCell g k xv yv zv e).2.1 ∧
      (resolveCell g k xv yv zv e).2.1 < (g.res : ℤ)) ∧
    (0 ≤ (resolveCell g k xv yv zv e).2.2.1 ∧
      (resolveCell g k xv yv zv e).2.2.1 < (g.res : ℤ)) ∧
    (0 ≤ (resolveCell g k xv yv zv e).2.2.2.1 ∧
      (resolveCell g k xv yv zv e).2.2.2.1 < (g.res : ℤ)) ∧
    (resolveCell g k xv yv zv e).2.2.2.2 = (globalEdge g k xv yv zv e).2.2.2 := by
  obtain ⟨hs1, hs2, hs3, hs4, hs5, hs6⟩ := edgeShifts_bounds e
  have hxb := tdiv_zero_or_one ((xv : ℤ) + (edgeShifts e).1) (g.res : ℤ)
    (by omega) (by omega) (by exact_mod_cast hR)
  have hyb := tdiv_zero_or_one ((yv : ℤ) + (edgeShifts e).2.1) (g.res : ℤ)
    (by omega) (by omega) (by exact_mod_cast hR)
  have hzb := tdiv_zero_or_one ((zv : ℤ) + (edgeShifts e).2.2.1) (g.res : ℤ)
    (by omega) (by omega) (by exact_mod_cast hR)
  obtain ⟨hp0, hpA, hpK⟩ := hnb
  simp only [resolveCell, globalEdge, edgeBlockShift] at *
  refine ⟨hp0, hpA, ?_, ?_, ?_, ⟨hxb.2.1, hxb.2.2⟩, ⟨hyb.2.1, hyb.2.2⟩,
    ⟨hzb.2.1, hzb.2.2⟩, trivial⟩
  · rw [hpK]
    dsimp only
    ring
  · rw [hpK]
    dsimp only
    ring
  · rw [hpK]
    dsimp only
    ring

/-- C6: for every edge marked -1 in the mesh-structure tensor, exactly
one global vertex index in [0, total_vtx_count) is allocated, where
total_vtx_count is Pass 1's count of marked edges; the indices allocated
across Pass 2 are exactly 0..total-1, each once, and the allocated index
is stored back in the owning channel.  Moreover every triangle corner of
Pass 3 resolves through edge_shifts, nb_indices and inv_indices to a cell
determined only by the global edge identity, so two adjacent voxels
sharing an edge read the same vertex index (under consistency of the
neighbor tables with the active set and injectivity of the block
keys). -/
theorem C6_mesh_vertex_allocation_unique :
    (∀ (m0 : MeshStruct) (nA R : ℕ),
      (pass2 m0 nA R).count = pass1Count m0 nA R ∧
      (pass2 m0 nA R).assigned.map Prod.fst =
        List.range (pass1Count m0 nA R) ∧
      (pass2 m0 nA R).assigned.map Prod.snd =
        markedCells m0 (meshCells nA R) ∧
      (∀ c ∈ meshCells nA R, m0 c = -1 →
        ∃ j, (j, c) ∈ (pass2 m0 nA R).assigned ∧
          (pass2 m0 nA R).mesh c = (j : ℤ) ∧ j < pass1Count m0 nA R)) ∧
    (∀ (g : Grid) (k1 x1 y1 z1 e1 k2 x2 y2 z2 e2 : ℕ),
      KeysInj g → 0 < g.res →
      x1 < g.res → y1 < g.res → z1 < g.res → e1 < 12 →
      x2 < g.res → y2 < g.res → z2 < g.res → e2 < 12 →
      NbOK g k1 (edgeBlockShift g x1 y1 z1 e1).1
        (edgeBlockShift g x1 y1 z1 e1).2.1
        (edgeBlockShift g x1 y1 z1 e1).2.2 →
      NbOK g k2 (edgeBlockShift g x2 y2 z2 e2).1
        (edgeBlockShift g x2 y2 z2 e2).2.1
        (edgeBlockShift g x2 y2 z2 e2).2.2 →
      globalEdge g k1 x1 y1 z1 e1 = globalEdge g k2 x2 y2 z2 e2 →
      resolveCell g k1 x1 y1 z1 e1 = resolveCell g k2 x2 y2 z2 e2 ∧
      ∀ m : MeshStruct, pass3Corner g m k1 x1 y1 z1 e1 =
        pass3Corner g m k2 x2 y2 z2 e2) := by
  constructor
  · intro m0 nA R
    have hfold := pass2Edge_fold m0 (meshCells nA R) ⟨0, m0, []⟩
      (meshCells_nodup nA R) (fun c _ => rfl)
    rw [← pass2_eq_cells m0 nA R] at hfold
    dsimp only at hfold
    refine ⟨?_, ?_, ?_, ?_⟩
    · rw [hfold.1, pass1Count_eq]
      omega
    · rw [hfold.2.1, List.nil_append, enumFrom_map_fst_eq, pass1Count_eq,
        List.range_eq_range']
    · rw [hfold.2.1, List.nil_append]
      exact enumFrom_map_snd_eq 0 _
    · intro c hc hm
      obtain ⟨j, hjmem, hjmesh⟩ := hfold.2.2.2 c hc hm
      refine ⟨j, hjmem, hjmesh, ?_⟩
      have hmap : j ∈ (pass2 m0 nA R).assigned.map Prod.fst :=
        List.mem_map_of_mem Prod.fst hjmem
      rw [hfold.2.1, List.nil_append, enumFrom_map_fst_eq,
        ← List.range_eq_range'] at hmap
      rw [pass1Count_eq]
      exact List.mem_range.mp hmap
  · intro g k1 x1 y1 z1 e1 k2 x2 y2 z2 e2 hinj hR hx1 hy1 hz1 _ hx2 hy2
      hz2 _ hnb1 hnb2 heq
    have H1 := resolveCell_global g k1 x1 y1 z1 e1 hR hx1 hy1 hz1 hnb1
    have H2 := resolveCell_global g k2 x2 y2 z2 e2 hR hx2 hy2 hz2 hnb2
    obtain ⟨h1p0, h1pA, h1x, h1y, h1z, h1bx, h1by, h1bz, h1ax⟩ := H1
    obtain ⟨h2p0, h2pA, h2x, h2y, h2z, h2bx, h2by, h2bz, h2ax⟩ := H2
    have hRz : (0 : ℤ) < (g.res : ℤ) := by exact_mod_cast hR
    have hxc := mul_add_lt_inj (g.res : ℤ) _ _ _ _ hRz h1bx.1 h1bx.2
      h2bx.1 h2bx.2 (by rw [h1x, h2x, heq])
    have hyc := mul_add_lt_inj (g.res : ℤ) _ _ _ _ hRz h1by.1 h1by.2
      h2by.1 h2by.2 (by rw [h1y, h2y, heq])
    have hzc := mul_add_lt_inj (g.res : ℤ) _ _ _ _ hRz h1bz.1 h1bz.2
      h2bz.1 h2bz.2 (by rw [h1z, h2z, heq])
    have hK : g.blockKeys (g.indices ((resolveCell g k1 x1 y1 z1 e1).1).toNat) =
        g.blockKeys (g.indices ((resolveCell g k2 x2 y2 z2 e2).1).toNat) := by
      have e1k := hxc.1
      have e2k := hyc.1
      have e3k := hzc.1
      rcases hp1 : g.blockKeys (g.indices
        ((resolveCell g k1 x1 y1 z1 e1).1).toNat) with ⟨a1, b1, c1⟩
      rcases hp2 : g.blockKeys (g.indices
        ((resolveCell g k2 x2 y2 z2 e2).1).toNat) with ⟨a2, b2, c2⟩
      rw [hp1, hp2] at e1k e2k e3k
      simp only at e1k e2k e3k
      rw [e1k, e2k, e3k]
    have hpos : ((resolveCell g k1 x1 y1 z1 e1).1).toNat =
        ((resolveCell g k2 x2 y2 z2 e2).1).toNat :=
      hinj _ h1pA _ h2pA hK
    have hposZ : (resolveCell g k1 x1 y1 z1 e1).1 =
        (resolveCell g k2 x2 y2 z2 e2).1 := by omega
    have hax : (resolveCell g k1 x1 y1 z1 e1).2.2.2.2 =
        (resolveCell g k2 x2 y2 z2 e2).2.2.2.2 := by
      rw [h1ax, h2ax, heq]
    have hcell : resolveCell g k1 x1 y1 z1 e1 =
        resolveCell g k2 x2 y2 z2 e2 := by
      rcases hr1 : resolveCell g k1 x1 y1 z1 e1 with ⟨a1, b1, c1, d1, f1⟩
      rcases hr2 : resolveCell g k2 x2 y2 z2 e2 with ⟨a2, b2, c2, d2, f2⟩
      rw [hr1, hr2] at hposZ hax
      have hb := hxc.2
      have hcq := hyc.2
      have hd := hzc.2
      rw [hr1, hr2] at hb hcq hd
      simp only at hposZ hax hb hcq hd
      rw [hposZ, hax, hb, hcq, hd]
    exact ⟨hcell, fun m => by rw [pass3Corner, pass3Corner, hcell]⟩

/-- A one-block grid with block key (0,0,0) at slot 0, used by the
concrete mesh-resolution and neighbor-safety witnesses: only the central
neighbor entry (13) is present, pointing back at the block itself. -/
def gMesh : Grid where
  res := 2
  nBlocks := 1
  nActive := 1
  indices := fun _ => 0
  blockKeys := fun _ => (0, 0, 0)
  voxel := fun _ _ _ _ => ⟨-(1/2), 1, 0, 0, 0⟩
  nbIndices := fun _ _ => 0
  nbMasks := fun k nb => decide (k = 0) && decide (nb = 13)
  invIndices := fun _ => 0

/-- Witness for C6: inside gMesh, edge 1 of voxel (0,0,0) and edge 3 of
voxel (1,0,0) denote the same global edge, and the Pass 3 resolution
yields the same cell, hence the same stored vertex index. -/
theorem C6_witness :
    resolveCell gMesh 0 0 0 0 1 = resolveCell gMesh 0 1 0 0 3 ∧
    ∀ m : MeshStruct, pass3Corner gMesh m 0 0 0 0 1 =
      pass3Corner gMesh m 0 1 0 0 3 :=
  C6_mesh_vertex_allocation_unique.2 gMesh 0 0 0 0 1 0 1 0 0 3
    (by unfold KeysInj; decide) (by decide) (by decide) (by decide)
    (by decide) (by decide) (by decide) (by decide) (by decide) (by decide)
    (by unfold NbOK; decide) (by unfold NbOK; decide) (by decide)

theorem DeviceGetVoxelAt_isSome (g : Grid) (xo yo zo : ℤ) (k : ℕ) :
    (DeviceGetVoxelAt g xo yo zo k).isSome =
      g.nbMasks k ((Int.fdiv xo (g.res : ℤ) + 1) +
        (Int.fdiv yo (g.res : ℤ) + 1) * 3 +
        (Int.fdiv zo (g.res : ℤ) + 1) * 9) := by
  simp only [DeviceGetVoxelAt]
  split
  · rename_i h
    simp [h]
  · rename_i h
    simp [Bool.not_eq_true] at h
    simp [h]

/-- C10: assuming the neighbor tables consistently describe the active
set (a set mask entry always stores an in-range slot whose inverse index
is an in-range position), whenever the 8-corner check of Pass 0 succeeded
for a voxel, the neighbor entry read without consulting nb_masks by the
edge-owner resolution of Pass 0 and Pass 3 has its mask set — the
edge-owning voxel lies in the block of one of the 8 checked corners — so
the unmasked nb_indices entry and the inv_indices entry derived from it
are in range and never a sentinel. -/
theorem C10_unmasked_neighbor_read_safe (g : Grid) (hR : 0 < g.res)
    (k xv yv zv : ℕ) (hx : xv < g.res) (hy : yv < g.res) (hz : zv < g.res)
    (hcons : ∀ j : ℕ, j < 27 → g.nbMasks k (j : ℤ) = true →
      0 ≤ g.nbIndices k (j : ℤ) ∧ g.nbIndices k (j : ℤ) < (g.nBlocks : ℤ) ∧
      0 ≤ g.invIndices (g.nbIndices k (j : ℤ)) ∧
      g.invIndices (g.nbIndices k (j : ℤ)) < (g.nActive : ℤ))
    (hcorners : ∀ i : ℕ, i < 8 →
      (DeviceGetVoxelAt g ((xv : ℤ) + (vtxShifts i).1)
        ((yv : ℤ) + (vtxShifts i).2.1)
        ((zv : ℤ) + (vtxShifts i).2.2) k).isSome = true) :
    ∀ e : ℕ, e < 12 →
      g.nbMasks k (edgeNbIdx g xv yv zv e) = true ∧
      0 ≤ g.nbIndices k (edgeNbIdx g xv yv zv e) ∧
      g.nbIndices k (edgeNbIdx g xv yv zv e) < (g.nBlocks : ℤ) ∧
      0 ≤ g.invIndices (g.nbIndices k (edgeNbIdx g xv yv zv e)) ∧
      g.invIndices (g.nbIndices k (edgeNbIdx g xv yv zv e)) <
        (g.nActive : ℤ) := by
  intro e he
  have hcorner : ∃ j, j < 8 ∧ vtxShifts j =
      ((edgeShifts e).1, (edgeShifts e).2.1, (edgeShifts e).2.2.1) := by
    interval_cases e
    · exact ⟨0, by norm_num, by decide⟩
    · exact ⟨1, by norm_num, by decide⟩
    · exact ⟨3, by norm_num, by decide⟩
    · exact ⟨0, by norm_num, by decide⟩
    · exact ⟨4, by norm_num, by decide⟩
    · exact ⟨5, by norm_num, by decide⟩
    · exact ⟨7, by norm_num, by decide⟩
    · exact ⟨4, by norm_num, by decide⟩
    · exact ⟨0, by norm_num, by decide⟩
    · exact ⟨1, by norm_num, by decide⟩
    · exact ⟨2, by norm_num, by decide⟩
    · exact ⟨3, by norm_num, by decide⟩
  obtain ⟨j, hj8, hjeq⟩ := hcorner
  obtain ⟨hs1, hs2, hs3, hs4, hs5, hs6⟩ := edgeShifts_bounds e
  have hvx : (vtxShifts j).1 = (edgeShifts e).1 := by rw [hjeq]
  have hvy : (vtxShifts j).2.1 = (edgeShifts e).2.1 := by rw [hjeq]
  have hvz : (vtxShifts j).2.2 = (edgeShifts e).2.2.1 := by rw [hjeq]
  have hRz : (0 : ℤ) ≤ (g.res : ℤ) := by positivity
  have hxR : (xv : ℤ) < (g.res : ℤ) := by exact_mod_cast hx
  have hyR : (yv : ℤ) < (g.res : ℤ) := by exact_mod_cast hy
  have hzR : (zv : ℤ) < (g.res : ℤ) := by exact_mod_cast hz
  have hxv0 : (0 : ℤ) ≤ (xv : ℤ) := Int.natCast_nonneg xv
  have hyv0 : (0 : ℤ) ≤ (yv : ℤ) := Int.natCast_nonneg yv
  have hzv0 : (0 : ℤ) ≤ (zv : ℤ) := Int.natCast_nonneg zv
  have hcj := hcorners j hj8
  rw [DeviceGetVoxelAt_isSome] at hcj
  have hnbeq : (Int.fdiv ((xv : ℤ) + (vtxShifts j).1) (g.res : ℤ) + 1) +
      (Int.fdiv ((yv : ℤ) + (vtxShifts j).2.1) (g.res : ℤ) + 1) * 3 +
      (Int.fdiv ((zv : ℤ) + (vtxShifts j).2.2) (g.res : ℤ) + 1) * 9 =
      edgeNbIdx g xv yv zv e := by
    rw [hvx, hvy, hvz, edgeNbIdx,
      Int.fdiv_eq_tdiv (by omega) hRz,
      Int.fdiv_eq_tdiv (by omega) hRz,
      Int.fdiv_eq_tdiv (by omega) hRz]
  rw [hnbeq] at hcj
  have hxb := tdiv_zero_or_one ((xv : ℤ) + (edgeShifts e).1) (g.res : ℤ)
    (by omega) (by omega) (by exact_mod_cast hR)
  have hyb := tdiv_zero_or_one ((yv : ℤ) + (edgeShifts e).2.1) (g.res : ℤ)
    (by omega) (by omega) (by exact_mod_cast hR)
  have hzb := tdiv_zero_or_one ((zv : ℤ) + (edgeShifts e).2.2.1) (g.res : ℤ)
    (by omega) (by omega) (by exact_mod_cast hR)
  have hnbrange : 0 ≤ edgeNbIdx g xv yv zv e ∧
      edgeNbIdx g xv yv zv e < 27 := by
    rw [edgeNbIdx]
    rcases hxb.1 with h1 | h1 <;> rcases hyb.1 with h2 | h2 <;>
      rcases hzb.1 with h3 | h3 <;> rw [h1, h2, h3] <;> norm_num
  obtain ⟨hnb0, hnb27⟩ := hnbrange
  have hcast : (((edgeNbIdx g xv yv zv e).toNat : ℕ) : ℤ) =
      edgeNbIdx g xv yv zv e := Int.toNat_of_nonneg hnb0
  have hlt27 : (edgeNbIdx g xv yv zv e).toNat < 27 := by omega
  have hc := hcons (edgeNbIdx g xv yv zv e).toNat hlt27
    (by rw [hcast]; exact hcj)
  rw [hcast] at hc
  exact ⟨hcj, hc.1, hc.2.1, hc.2.2.1, hc.2.2.2⟩

/-- Witness for C10: in gMesh, after the successful 8-corner check of
voxel (0,0,0), the unmasked neighbor lookup of edge 0 is masked, in
range and not a sentinel. -/
theorem C10_witness :
    gMesh.nbMasks 0 (edgeNbIdx gMesh 0 0 0 0) = true ∧
    0 ≤ gMesh.nbIndices 0 (edgeNbIdx gMesh 0 0 0 0) ∧
    gMesh.nbIndices 0 (edgeNbIdx gMesh 0 0 0 0) < (gMesh.nBlocks : ℤ) ∧
    0 ≤ gMesh.invIndices (gMesh.nbIndices 0 (edgeNbIdx gMesh 0 0 0 0)) ∧
    gMesh.invIndices (gMesh.nbIndices 0 (edgeNbIdx gMesh 0 0 0 0)) <
      (gMesh.nActive : ℤ) :=
  C10_unmasked_neighbor_read_safe gMesh (by decide) 0 0 0 0 (by decide)
    (by decide) (by decide) (by decide) (by decide) 0 (by decide)

/-! ## EstimateRangeCPU: per-block bounding and fragment emission -/

/-- Scalar configuration of EstimateRangeCPU (lines 937-947). -/
structure ERParams where
  K : Intrinsics
  Ew2c : Extrinsics
  imgH : ℤ
  imgW : ℤ
  downFactor : ℤ
  blockRes : ℤ
  voxelSize : ℚ
  depthMin : ℚ
  depthMax : ℚ

/-- Accumulator of the 8-corner bounding loop (lines 993-1027). -/
structure ERAcc where
  uMin : ℤ
  vMin : ℤ
  uMax : ℤ
  vMax : ℤ
  zMin : ℚ
  zMax : ℚ

/-- The corner bits ((i and 1) > 0, (i and 2) > 0, (i and 4) > 0) of the
corner loop i = 0..7 of lines 1000-1006, unrolled in loop order. -/
def cornerBits : List (ℕ × ℕ × ℕ) :=
  [(0, 0, 0), (1, 0, 0), (0, 1, 0), (1, 1, 0),
   (0, 0, 1), (1, 0, 1), (0, 1, 1), (1, 1, 1)]

/-- One corner of the bounding loop (lines 1000-1027): project the world
corner, skip when behind the camera, else widen the integer pixel
rectangle with floor/ceil of the downsampled projection and widen the
depth interval. -/
def erCornerStep (p : ERParams) (key : ℤ × ℤ × ℤ) (acc : ERAcc)
    (b : ℕ × ℕ × ℕ) : ERAcc :=
  let xw : ℚ := (((key.1 + (b.1 : ℤ)) * p.blockRes : ℤ) : ℚ) * p.voxelSize
  let yw : ℚ := (((key.2.1 + (b.2.1 : ℤ)) * p.blockRes : ℤ) : ℚ) * p.voxelSize
  let zw : ℚ := (((key.2.2 + (b.2.2 : ℤ)) * p.blockRes : ℤ) : ℚ) * p.voxelSize
  let c := rigidTransform p.Ew2c 1 xw yw zw
  if c.2.2 ≤ 0 then acc
  else
    let uv := project p.K c.1 c.2.1 c.2.2
    let u := uv.1 / (p.downFactor : ℚ)
    let v := uv.2 / (p.downFactor : ℚ)
    { vMin := min ⌊v⌋ acc.vMin, vMax := max ⌈v⌉ acc.vMax,
      uMin := min ⌊u⌋ acc.uMin, uMax := max ⌈u⌉ acc.uMax,
      zMin := min acc.zMin c.2.2, zMax := max acc.zMax c.2.2 }

/-- Per-block bounding rectangle of EstimateRangeCPU Pass 0 (lines
989-1039): the clipped integer rectangle and depth interval, or none
when the block is discarded. -/
def blockRect (p : ERParams) (key : ℤ × ℤ × ℤ) :
    Option (ℤ × ℤ × ℤ × ℤ × ℚ × ℚ) :=
  let hDown := Int.tdiv p.imgH p.downFactor
  let wDown := Int.tdiv p.imgW p.downFactor
  let a := cornerBits.foldl (erCornerStep p key)
    ⟨wDown - 1, hDown - 1, 0, 0, p.depthMax, p.depthMin⟩
  let vMin := max 0 a.vMin
  let vMax := min (hDown - 1) a.vMax
  let uMin := max 0 a.uMin
  let uMax := min (wDown - 1) a.uMax
  if vMin ≥ vMax ∨ uMin ≥ uMax ∨ a.zMin ≥ a.zMax then none
  else some (uMin, vMin, uMax, vMax, a.zMin, a.zMax)

/-- The number of 16x16 fragments tiling a block rectangle (lines
1042-1047). -/
def fragCount (r : ℤ × ℤ × ℤ × ℤ × ℚ × ℚ) : ℤ :=
  ⌈((r.2.2.2.1 - r.2.1 + 1 : ℤ) : ℚ) / 16⌉ *
    ⌈((r.2.2.1 - r.1 + 1 : ℤ) : ℚ) / 16⌉

/-- The fragment entries a block writes into the shared buffer from its
reserved start (lines 1054-1078): entry index start + frag_v *
frag_u_count + frag_u, contents (z_min, z_max, v_min + 16 frag_v,
u_min + 16 frag_u, clipped maxima). -/
def fragEntries (r : ℤ × ℤ × ℤ × ℤ × ℚ × ℚ) (start : ℤ) :
    List (ℤ × (ℚ × ℚ × ℚ × ℚ × ℚ × ℚ)) :=
  let fragV := ⌈((r.2.2.2.1 - r.2.1 + 1 : ℤ) : ℚ) / 16⌉
  let fragU := ⌈((r.2.2.1 - r.1 + 1 : ℤ) : ℚ) / 16⌉
  (List.range fragV.toNat).flatMap (fun fv =>
    (List.range fragU.toNat).map (fun fu =>
      (start + (fv : ℤ) * fragU + (fu : ℤ),
       (r.2.2.2.2.1, r.2.2.2.2.2,
        ((r.2.1 : ℚ) + 16 * (fv : ℚ)), ((r.1 : ℚ) + 16 * (fu : ℚ)),
        min ((r.2.1 : ℚ) + 16 * (fv : ℚ) + 15) (r.2.2.2.1 : ℚ),
        min ((r.1 : ℚ) + 16 * (fu : ℚ) + 15) (r.2.2.1 : ℚ)))))

/-- State threaded through EstimateRange Pass 0: the shared fragment
counter, the slice each block writes ([start, start + frag_count)), the
buffer writes, and the overflow diagnostic. -/
structure ER0State where
  counter : ℤ
  slices : List (ℤ × ℤ)
  writes : List (ℤ × (ℚ × ℚ × ℚ × ℚ × ℚ × ℚ))
  diag : Bool

/-- One block of EstimateRange Pass 0 (lines 989-1079): a non-discarded
block fetches the shared counter with an atomic add of 1 (line 1048),
checks start + frag_count against the buffer capacity (printing the
diagnostic on overflow, with no early return), and writes its
frag_count entries from the fetched start. -/
def pass0Step (p : ERParams) (st : ER0State) (key : ℤ × ℤ × ℤ) :
    ER0State :=
  match blockRect p key with
  | none => st
  | some r =>
    let fc := fragCount r
    let start := st.counter
    { counter := start + 1,
      slices := st.slices ++ [(start, fc)],
      writes := st.writes ++ fragEntries r start,
      diag := st.diag || decide (start + fc ≥ 65535) }

/-- EstimateRange Pass 0 over the block keys, as a sequential fold. -/
def EstimateRangePass0 (p : ERParams) (keys : List (ℤ × ℤ × ℤ)) :
    ER0State :=
  keys.foldl (pass0Step p) ⟨0, [], [], false⟩

/-- Pairwise disjointness of the reserved slices
[start, start + count). -/
def SlicesDisjoint (l : List (ℤ × ℤ)) : Prop :=
  List.Pairwise (fun a b => a.1 + a.2 ≤ b.1 ∨ b.1 + b.2 ≤ a.1) l

/-- Two identical blocks at key (0,0,1), each tiling into 2x2 = 4
fragments under these intrinsics. -/
def pC7 : ERParams := ⟨⟨496, 496, 0, 0⟩, EId, 256, 256, 8, 16, 1, 1/10, 100⟩

/-- The block keys of the C7 failing input. -/
def keysC7 : List (ℤ × ℤ × ℤ) := [(0, 0, 1), (0, 0, 1)]

theorem tdiv_256_8 : (256 : ℤ).tdiv 8 = 32 := by decide

theorem pass0Step_some (p : ERParams) (st : ER0State) (key : ℤ × ℤ × ℤ)
    (r : ℤ × ℤ × ℤ × ℤ × ℚ × ℚ) (h : blockRect p key = some r) :
    pass0Step p st key =
      ⟨st.counter + 1, st.slices ++ [(st.counter, fragCount r)],
       st.writes ++ fragEntries r st.counter,
       st.diag || decide (st.counter + fragCount r ≥ 65535)⟩ := by
  rw [pass0Step.eq_def, h]

set_option maxHeartbeats 1600000 in
theorem blockRect_pC7 : blockRect pC7 (0, 0, 1) = some (0, 0, 31, 31, 16, 32) := by
  norm_num [blockRect, cornerBits, erCornerStep, pC7, EId, rigidTransform,
    project, tdiv_256_8, min_def, max_def]

theorem fragCount_pC7 : fragCount ((0 : ℤ), (0 : ℤ), (31 : ℤ), (31 : ℤ), (16 : ℚ), (32 : ℚ)) = 4 := by
  norm_num [fragCount]

/-- C7 fails on the code: the fragment-emission counter is advanced by 1
per block (OPEN3D_ATOMIC_ADD(count_ptr, 1), line 1048) although the
block writes frag_count entries from the reserved start, so with two
blocks of 4 fragments each the reserved slices are [0,4) and [1,5),
which overlap. -/
theorem C7_fragment_slices_overlap :
    (EstimateRangePass0 pC7 keysC7).slices = [(0, 4), (1, 4)] ∧
    ¬ SlicesDisjoint (EstimateRangePass0 pC7 keysC7).slices := by
  have h1 : pass0Step pC7 ⟨0, [], [], false⟩ (0, 0, 1) =
      ⟨1, [(0, 4)], fragEntries (0, 0, 31, 31, 16, 32) 0, false⟩ := by
    rw [pass0Step_some pC7 ⟨0, [], [], false⟩ (0, 0, 1) (0, 0, 31, 31, 16, 32)
      blockRect_pC7, fragCount_pC7]
    norm_num
  have h2 : pass0Step pC7
      ⟨1, [(0, 4)], fragEntries (0, 0, 31, 31, 16, 32) 0, false⟩ (0, 0, 1) =
      ⟨2, [(0, 4), (1, 4)],
       fragEntries (0, 0, 31, 31, 16, 32) 0 ++ fragEntries (0, 0, 31, 31, 16, 32) 1,
       false⟩ := by
    rw [pass0Step_some pC7 ⟨1, [(0, 4)], fragEntries (0, 0, 31, 31, 16, 32) 0, false⟩
      (0, 0, 1) (0, 0, 31, 31, 16, 32) blockRect_pC7, fragCount_pC7]
    norm_num
  have hs : (EstimateRangePass0 pC7 keysC7).slices = [(0, 4), (1, 4)] := by
    rw [EstimateRangePass0, keysC7, List.foldl_cons, h1, List.foldl_cons, h2,
      List.foldl_nil]
  refine ⟨hs, ?_⟩
  rw [hs]
  unfold SlicesDisjoint
  decide

/-! ## RayCastCPU: per-pixel ray marching -/

/-- Scalar configuration of RayCastCPU (lines 1152-1158). -/
structure RCParams where
  blockRes : ℤ
  voxelSize : ℚ
  sdfTrunc : ℚ
  depthScale : ℚ
  weightThreshold : ℚ

/-- block_size = voxel_size * block_resolution (line 1212). -/
def rcBlockSize (p : RCParams) : ℚ := p.voxelSize * (p.blockRes : ℚ)

/-- The hash map (find : key to block slot) and the voxel block buffer
(slot, x, y, z) of RayCastCPU, as functions. -/
structure RCGrid where
  find : ℤ × ℤ × ℤ → Option ℤ
  voxel : ℤ → ℤ → ℤ → ℤ → Voxel

/-- GetVoxelAtT (lines 1254-1284): walk to the point at ray parameter t,
floor to block coordinates, look the block up in the hash map, and on
success truncate the in-block offset to voxel coordinates. -/
def GetVoxelAtT (g : RCGrid) (p : RCParams)
    (xo yo zo xd yd zd t : ℚ) : Option Voxel :=
  let xg := xo + t * xd
  let yg := yo + t * yd
  let zg := zo + t * zd
  let xb := ⌊xg / rcBlockSize p⌋
  let yb := ⌊yg / rcBlockSize p⌋
  let zb := ⌊zg / rcBlockSize p⌋
  match g.find (xb, yb, zb) with
  | none => none
  | some addr =>
    some (g.voxel addr
      (ratTrunc ((xg - (xb : ℚ) * rcBlockSize p) / p.voxelSize))
      (ratTrunc ((yg - (yb : ℚ) * rcBlockSize p) / p.voxelSize))
      (ratTrunc ((zg - (zb : ℚ) * rcBlockSize p) / p.voxelSize)))

/-- Mutable state of the march loop: t, t_prev, tsdf_prev
(lines 1289, 1298-1299). -/
structure RCState where
  t : ℚ
  tPrev : ℚ
  tsdfPrev : ℚ

/-- What a terminating step writes: t_intersect, the depth output when
enabled, the vertex output when enabled (lines 1325-1348). -/
structure RCResult where
  tIntersect : ℚ
  depthOut : Option ℚ
  vertexOut : Option (ℚ × ℚ × ℚ)

/-- One iteration of the march loop (lines 1312-1508, color/normal
outputs omitted): absent block steps t by block_size with t_prev := t;
a present voxel with tsdf_prev > 0, weight >= weight_threshold and
tsdf <= 0 terminates with the interpolated t_intersect and the enabled
outputs; otherwise t advances by (tsdf * sdf_trunc < voxel_size ?
voxel_size : tsdf * sdf_trunc) with t_prev := t, tsdf_prev := tsdf. -/
def rcStep (g : RCGrid) (p : RCParams) (enD enV : Bool)
    (xo yo zo xd yd zd : ℚ) (s : RCState) : RCResult ⊕ RCState :=
  match GetVoxelAtT g p xo yo zo xd yd zd s.t with
  | none => Sum.inr ⟨s.t + rcBlockSize p, s.t, s.tsdfPrev⟩
  | some vox =>
    if 0 < s.tsdfPrev ∧ p.weightThreshold ≤ vox.weight ∧ vox.tsdf ≤ 0 then
      let ti := (s.t * s.tsdfPrev - s.tPrev * vox.tsdf) /
        (s.tsdfPrev - vox.tsdf)
      Sum.inl ⟨ti,
        if enD then some (ti * p.depthScale) else none,
        if enV then some (xo + ti * xd, yo + ti * yd, zo + ti * zd)
        else none⟩
    else
      Sum.inr ⟨s.t +
        (if vox.tsdf * p.sdfTrunc < p.voxelSize then p.voxelSize
         else vox.tsdf * p.sdfTrunc), s.t, vox.tsdf⟩

/-- The march loop with the remaining step budget as fuel
(for step in [0, max_steps), line 1312). -/
def rayCastLoop (g : RCGrid) (p : RCParams) (enD enV : Bool)
    (xo yo zo xd yd zd : ℚ) : ℕ → RCState → Option RCResult
  | 0, _ => none
  | Nat.succ n, s =>
    match rcStep g p enD enV xo yo zo xd yd zd s with
    | Sum.inl r => some r
    | Sum.inr s2 => rayCastLoop g p enD enV xo yo zo xd yd zd n s2

/-- One pixel of RayCastCPU: march from t = depth_min with
t_prev = depth_min and tsdf_prev = 1 (lines 1289-1299). -/
def RayCastPixel (g : RCGrid) (p : RCParams) (enD enV : Bool)
    (xo yo zo xd yd zd depthMin : ℚ) (maxSteps : ℕ) : Option RCResult :=
  rayCastLoop g p enD enV xo yo zo xd yd zd maxSteps
    ⟨depthMin, depthMin, 1⟩

theorem rcStep_inl_inv (g : RCGrid) (p : RCParams) (enD enV : Bool)
    (xo yo zo xd yd zd : ℚ) (s : RCState) (r : RCResult)
    (h : rcStep g p enD enV xo yo zo xd yd zd s = Sum.inl r) :
    ∃ vox, GetVoxelAtT g p xo yo zo xd yd zd s.t = some vox ∧
      0 < s.tsdfPrev ∧ p.weightThreshold ≤ vox.weight ∧ vox.tsdf ≤ 0 ∧
      r.tIntersect = (s.t * s.tsdfPrev - s.tPrev * vox.tsdf) /
        (s.tsdfPrev - vox.tsdf) ∧
      r.depthOut = (if enD then some (r.tIntersect * p.depthScale)
        else none) ∧
      r.vertexOut = (if enV then some (xo + r.tIntersect * xd,
        yo + r.tIntersect * yd, zo + r.tIntersect * zd) else none) := by
  cases hv : GetVoxelAtT g p xo yo zo xd yd zd s.t with
  | none =>
    rw [rcStep.eq_def, hv] at h
    simp at h
  | some vox =>
    rw [rcStep.eq_def, hv] at h
    dsimp only at h
    by_cases hc : 0 < s.tsdfPrev ∧ p.weightThreshold ≤ vox.weight ∧
        vox.tsdf ≤ 0
    · rw [if_pos hc] at h
      obtain rfl := (Sum.inl.inj h).symm
      exact ⟨vox, rfl, hc.1, hc.2.1, hc.2.2, rfl, rfl, rfl⟩
    · rw [if_neg hc] at h
      simp at h

theorem rayCastLoop_some_inv (g : RCGrid) (p : RCParams) (enD enV : Bool)
    (xo yo zo xd yd zd : ℚ) (fuel : ℕ) :
    ∀ (s : RCState) (r : RCResult),
      rayCastLoop g p enD enV xo yo zo xd yd zd fuel s = some r →
      ∃ (s2 : RCState) (vox : Voxel),
        GetVoxelAtT g p xo yo zo xd yd zd s2.t = some vox ∧
        0 < s2.tsdfPrev ∧ p.weightThreshold ≤ vox.weight ∧
        vox.tsdf ≤ 0 ∧
        r.tIntersect = (s2.t * s2.tsdfPrev - s2.tPrev * vox.tsdf) /
          (s2.tsdfPrev - vox.tsdf) ∧
        r.depthOut = (if enD then some (r.tIntersect * p.depthScale)
          else none) ∧
        r.vertexOut = (if enV then some (xo + r.tIntersect * xd,
          yo + r.tIntersect * yd, zo + r.tIntersect * zd) else none) := by
  induction fuel with
  | zero =>
    intro s r h
    simp [rayCastLoop] at h
  | succ n ih =>
    intro s r h
    cases hstep : rcStep g p enD enV xo yo zo xd yd zd s with
    | inl r0 =>
      rw [rayCastLoop, hstep] at h
      obtain rfl := (Option.some.inj h).symm
      obtain ⟨vox, hv, h1, h2, h3, h4, h5, h6⟩ :=
        rcStep_inl_inv g p enD enV xo yo zo xd yd zd s r hstep
      exact ⟨s, vox, hv, h1, h2, h3, h4, h5, h6⟩
    | inr s2 =>
      rw [rayCastLoop, hstep] at h
      exact ih s2 r h

/-- C8: at the first marching step where tsdf_prev > 0, the voxel weight
is at least weight_threshold and the current tsdf is nonpositive, the
ray terminates with t_intersect = (t*tsdf_prev - t_prev*tsdf) /
(tsdf_prev - tsdf); the depth output, when enabled, is
t_intersect * depth_scale, and the vertex output, when enabled, is
origin + t_intersect * direction. Conversely, every result the march
loop returns arises this way at some reached state. -/
theorem C8_first_crossing_interpolation :
    (∀ (g : RCGrid) (p : RCParams) (enD enV : Bool)
       (xo yo zo xd yd zd : ℚ) (s : RCState) (vox : Voxel),
      GetVoxelAtT g p xo yo zo xd yd zd s.t = some vox →
      0 < s.tsdfPrev → p.weightThreshold ≤ vox.weight → vox.tsdf ≤ 0 →
      rcStep g p enD enV xo yo zo xd yd zd s = Sum.inl
        ⟨(s.t * s.tsdfPrev - s.tPrev * vox.tsdf) / (s.tsdfPrev - vox.tsdf),
         if enD then some ((s.t * s.tsdfPrev - s.tPrev * vox.tsdf) /
           (s.tsdfPrev - vox.tsdf) * p.depthScale) else none,
         if enV then some
           (xo + (s.t * s.tsdfPrev - s.tPrev * vox.tsdf) /
              (s.tsdfPrev - vox.tsdf) * xd,
            yo + (s.t * s.tsdfPrev - s.tPrev * vox.tsdf) /
              (s.tsdfPrev - vox.tsdf) * yd,
            zo + (s.t * s.tsdfPrev - s.tPrev * vox.tsdf) /
              (s.tsdfPrev - vox.tsdf) * zd) else none⟩) ∧
    (∀ (g : RCGrid) (p : RCParams) (enD enV : Bool)
       (xo yo zo xd yd zd : ℚ) (fuel : ℕ) (s : RCState) (r : RCResult),
      rayCastLoop g p enD enV xo yo zo xd yd zd fuel s = some r →
      ∃ (s2 : RCState) (vox : Voxel),
        GetVoxelAtT g p xo yo zo xd yd zd s2.t = some vox ∧
        0 < s2.tsdfPrev ∧ p.weightThreshold ≤ vox.weight ∧
        vox.tsdf ≤ 0 ∧
        r.tIntersect = (s2.t * s2.tsdfPrev - s2.tPrev * vox.tsdf) /
          (s2.tsdfPrev - vox.tsdf) ∧
        r.depthOut = (if enD then some (r.tIntersect * p.depthScale)
          else none) ∧
        r.vertexOut = (if enV then some (xo + r.tIntersect * xd,
          yo + r.tIntersect * yd, zo + r.tIntersect * zd) else none)) := by
  constructor
  · intro g p enD enV xo yo zo xd yd zd s vox hv h1 h2 h3
    rw [rcStep.eq_def, hv]
    dsimp only
    rw [if_pos ⟨h1, h2, h3⟩]
  · intro g p enD enV xo yo zo xd yd zd fuel s r h
    exact rayCastLoop_some_inv g p enD enV xo yo zo xd yd zd fuel s r h

/-- A one-block grid whose every voxel has tsdf -1 and weight 1. -/
def rcG : RCGrid :=
  ⟨fun key => if key = (0, 0, 0) then some 0 else none,
   fun _ _ _ _ => ⟨-1, 1, 0, 0, 0⟩⟩

/-- block_resolution 1, voxel_size 1, sdf_trunc 1, depth_scale 2,
weight_threshold 1. -/
def rcP : RCParams := ⟨1, 1, 1, 2, 1⟩

theorem rcG_get : GetVoxelAtT rcG rcP (1/2) (1/2) 0 0 0 1 (1/4) =
    some ⟨-1, 1, 0, 0, 0⟩ := by
  norm_num [GetVoxelAtT, rcG, rcP, rcBlockSize, ratTrunc]

theorem C8_witness :
    rcStep rcG rcP true true (1/2) (1/2) 0 0 0 1 ⟨1/4, 1/4, 1⟩ =
      Sum.inl ⟨1/4, some (1/2), some (1/2, 1/2, 1/4)⟩ := by
  have h := C8_first_crossing_interpolation.1 rcG rcP true true
    (1/2) (1/2) 0 0 0 1 ⟨1/4, 1/4, 1⟩ ⟨-1, 1, 0, 0, 0⟩ rcG_get
    (by norm_num) (by norm_num [rcP]) (by norm_num)
  rw [h]
  norm_num [rcP]

/-- C9: a present voxel failing the crossing test advances t by exactly
max(voxel_size, tsdf * sdf_trunc); an absent block advances t by
block_size; hence with voxel_size > 0 and block_resolution > 0 every
non-terminating step strictly increases t, and the loop stops (with no
result) once the step budget max_steps is exhausted. -/
theorem C9_step_size_and_monotonicity :
    (∀ (g : RCGrid) (p : RCParams) (enD enV : Bool)
       (xo yo zo xd yd zd : ℚ) (s : RCState) (vox : Voxel),
      GetVoxelAtT g p xo yo zo xd yd zd s.t = some vox →
      ¬(0 < s.tsdfPrev ∧ p.weightThreshold ≤ vox.weight ∧
          vox.tsdf ≤ 0) →
      rcStep g p enD enV xo yo zo xd yd zd s =
        Sum.inr ⟨s.t + max p.voxelSize (vox.tsdf * p.sdfTrunc), s.t,
          vox.tsdf⟩) ∧
    (∀ (g : RCGrid) (p : RCParams) (enD enV : Bool)
       (xo yo zo xd yd zd : ℚ) (s : RCState),
      GetVoxelAtT g p xo yo zo xd yd zd s.t = none →
      rcStep g p enD enV xo yo zo xd yd zd s =
        Sum.inr ⟨s.t + rcBlockSize p, s.t, s.tsdfPrev⟩) ∧
    (∀ (g : RCGrid) (p : RCParams) (enD enV : Bool)
       (xo yo zo xd yd zd : ℚ),
      0 < p.voxelSize → (0 : ℤ) < p.blockRes →
      ∀ (s s2 : RCState),
        rcStep g p enD enV xo yo zo xd yd zd s = Sum.inr s2 →
        s.t < s2.t) ∧
    (∀ (g : RCGrid) (p : RCParams) (enD enV : Bool)
       (xo yo zo xd yd zd : ℚ) (s : RCState),
      rayCastLoop g p enD enV xo yo zo xd yd zd 0 s = none) := by
  refine ⟨?_, ?_, ?_, ?_⟩
  · intro g p enD enV xo yo zo xd yd zd s vox hv hc
    rw [rcStep.eq_def, hv]
    dsimp only
    rw [if_neg hc]
    rcases lt_or_le (vox.tsdf * p.sdfTrunc) p.voxelSize with h | h
    · rw [if_pos h, max_eq_left h.le]
    · rw [if_neg (not_lt.mpr h), max_eq_right h]
  · intro g p enD enV xo yo zo xd yd zd s hv
    rw [rcStep.eq_def, hv]
  · intro g p enD enV xo yo zo xd yd zd hvs hbr s s2 hstep
    have hbs : 0 < rcBlockSize p := by
      have : (0 : ℚ) < (p.blockRes : ℚ) := by exact_mod_cast hbr
      exact mul_pos hvs this
    cases hv : GetVoxelAtT g p xo yo zo xd yd zd s.t with
    | none =>
      rw [rcStep.eq_def, hv] at hstep
      dsimp only at hstep
      obtain rfl := (Sum.inr.inj hstep).symm
      dsimp only
      linarith
    | some vox =>
      rw [rcStep.eq_def, hv] at hstep
      dsimp only at hstep
      by_cases hc : 0 < s.tsdfPrev ∧ p.weightThreshold ≤ vox.weight ∧
          vox.tsdf ≤ 0
      · rw [if_pos hc] at hstep
        simp at hstep
      · rw [if_neg hc] at hstep
        obtain rfl := (Sum.inr.inj hstep).symm
        dsimp only
        rcases lt_or_le (vox.tsdf * p.sdfTrunc) p.voxelSize with h | h
        · rw [if_pos h]
          linarith
        · rw [if_neg (not_lt.mpr h)]
          linarith
  · intro g p enD enV xo yo zo xd yd zd s
    rfl

/-- A one-block grid whose every voxel has tsdf 1/2 and weight 1. -/
def rcG2 : RCGrid :=
  ⟨fun key => if key = (0, 0, 0) then some 0 else none,
   fun _ _ _ _ => ⟨1/2, 1, 0, 0, 0⟩⟩

theorem rcG2_get : GetVoxelAtT rcG2 rcP (1/2) (1/2) 0 0 0 1 (1/4) =
    some ⟨1/2, 1, 0, 0, 0⟩ := by
  norm_num [GetVoxelAtT, rcG2, rcP, rcBlockSize, ratTrunc]

theorem rcG_get_far : GetVoxelAtT rcG rcP (1/2) (1/2) 0 0 0 1 5 =
    none := by
  norm_num [GetVoxelAtT, rcG, rcP, rcBlockSize]

theorem C9_witness :
    rcStep rcG2 rcP true true (1/2) (1/2) 0 0 0 1 ⟨1/4, 1/4, 1⟩ =
      Sum.inr ⟨5/4, 1/4, 1/2⟩ ∧
    rcStep rcG rcP true true (1/2) (1/2) 0 0 0 1 ⟨5, 5, 1⟩ =
      Sum.inr ⟨6, 5, 1⟩ ∧
    (⟨1/4, 1/4, 1⟩ : RCState).t < (⟨5/4, 1/4, 1/2⟩ : RCState).t ∧
    rayCastLoop rcG rcP true true (1/2) (1/2) 0 0 0 1 0 ⟨1/4, 1/4, 1⟩ =
      none := by
  obtain ⟨hA, hB, hC, hD⟩ := C9_step_size_and_monotonicity
  have h1 : rcStep rcG2 rcP true true (1/2) (1/2) 0 0 0 1 ⟨1/4, 1/4, 1⟩ =
      Sum.inr ⟨5/4, 1/4, 1/2⟩ := by
    have h := hA rcG2 rcP true true (1/2) (1/2) 0 0 0 1 ⟨1/4, 1/4, 1⟩
      ⟨1/2, 1, 0, 0, 0⟩ rcG2_get (by norm_num [rcP])
    rw [h]
    norm_num [rcP, max_def]
  have h2 : rcStep rcG rcP true true (1/2) (1/2) 0 0 0 1 ⟨5, 5, 1⟩ =
      Sum.inr ⟨6, 5, 1⟩ := by
    have h := hB rcG rcP true true (1/2) (1/2) 0 0 0 1 ⟨5, 5, 1⟩
      rcG_get_far
    rw [h]
    norm_num [rcP, rcBlockSize]
  refine ⟨h1, h2, ?_, ?_⟩
  · exact hC rcG2 rcP true true (1/2) (1/2) 0 0 0 1 (by norm_num [rcP])
      (by norm_num [rcP]) ⟨1/4, 1/4, 1⟩ ⟨5/4, 1/4, 1/2⟩ h1
  · exact hD rcG rcP true true (1/2) (1/2) 0 0 0 1 ⟨1/4, 1/4, 1⟩

end TsdfKernel
